import Mathlib

/-!
Verification development for the `theelous3/multipart` repository: a shallow
embedding of `src/sansio_multipart/parser.py` and `src/multipart/utils.py`
into Lean 4, together with theorems settling the frozen claims about the
natural-language specification of the parser.

Conventions of the embedding:
* Python `bytes` / `bytearray` values are `List Nat` (one `Nat` per byte).
* Python `str` values are Lean `String` (the parser decodes with the default
  charset `"latin1"`, i.e. byte `b` becomes the character with code point `b`).
* Raising an exception is modelled with `Except`; the error value carries the
  parser object as mutated up to the raise point, because the `except` clause
  of `_queue_events` keeps the mutated parser and only flips its state.
* The unbounded `while True:` loop of `_queue_events` is modelled with a fuel
  parameter; exhausting the fuel (`FeedResult.hang`) models non-termination.
* Python string methods that the source uses (`lower`, `strip`, `split`,
  `replace`, `int(...)`) are modelled for the ASCII range, which covers every
  byte sequence the claims are about.
-/

namespace Multipart

abbrev Byte := Nat
abbrev Bytes := List Nat

/-- One `(line, line_ending)` pair as produced by `_separate_newlines`. -/
abbrev Line := Bytes × Bytes

/-- CR byte. -/
def CR : Byte := 13
/-- LF byte. -/
def LF : Byte := 10

/-- Helper of `separate_newlines`: a non-newline byte extends the first line
of the already-split remainder (or starts a final fragment). -/
def prepend_byte (b : Byte) : List Line → List Line
  | [] => [([b], [])]
  | (l, nl) :: rs => ((b :: l), nl) :: rs

/-- Composition of Python `bytes.splitlines(True)` with
`MultipartParser._separate_newlines`: cut a byte string into
`(line, terminator)` pairs, recognizing terminators CRLF, LF, CR in that
priority order; a trailing fragment gets the empty terminator. -/
def separate_newlines : Bytes → List Line
  | [] => []
  | b :: rest =>
      if b = 13 then
        match rest with
        | [] => [([], [13])]
        | b2 :: rest2 =>
            if b2 = 10 then ([], [13, 10]) :: separate_newlines rest2
            else ([], [13]) :: separate_newlines (b2 :: rest2)
      else if b = 10 then
        ([], [10]) :: separate_newlines rest
      else
        prepend_byte b (separate_newlines rest)

/-- `MultipartParser._buffer_chunk`: join `(line, ending)` pairs back into a
single byte string. -/
def join_lines : List Line → Bytes
  | [] => []
  | (l, nl) :: rest => l ++ nl ++ join_lines rest

/-- Decode bytes with the `latin1` codec (byte value = code point), the
parser's default charset. -/
def decode_latin1 (bs : Bytes) : String :=
  String.mk (bs.map Char.ofNat)

/-- Python whitespace for `str.strip()` and the regex class `\s` (ASCII part). -/
def py_space (c : Char) : Bool :=
  c = ' ' ∨ c = '\t' ∨ c = '\n' ∨ c = '\r' ∨ c = '\x0b' ∨ c = '\x0c'

/-- Python `str.lower()` on one character (ASCII range). -/
def py_lower_char (c : Char) : Char :=
  if 65 ≤ c.toNat ∧ c.toNat ≤ 90 then Char.ofNat (c.toNat + 32) else c

/-- Python `str.lower()` (ASCII range). -/
def py_lower (s : String) : String :=
  String.mk (s.data.map py_lower_char)

/-- Python `str.strip()` with no argument (ASCII whitespace). -/
def py_strip (s : String) : String :=
  String.mk (((s.data.dropWhile py_space).reverse.dropWhile py_space).reverse)

/-- Python `s.split(sep, 1)` for a one-character separator, when `sep` occurs
in `s`: the pieces before and after the first occurrence. -/
def s_split_once (s : String) (c : Char) : String × String :=
  (String.mk (s.data.takeWhile (· ≠ c)), String.mk ((s.data.dropWhile (· ≠ c)).drop 1))

/-- Whether a character occurs in the string (Python `c in s`). -/
def s_contains (s : String) (c : Char) : Bool :=
  s.data.any (· = c)

/-- Python `int(s)` on a decimal string: optional surrounding whitespace,
optional sign, then one or more ASCII digits; `none` models `ValueError`. -/
def py_int (s : String) : Option Int :=
  let cs := (py_strip s).data
  let signed : Bool × List Char :=
    match cs with
    | '-' :: r => (true, r)
    | '+' :: r => (false, r)
    | r => (false, r)
  if signed.2 ≠ [] ∧ signed.2.all (fun c => 48 ≤ c.toNat ∧ c.toNat ≤ 57) then
    let v : Nat := signed.2.foldl (fun acc c => 10 * acc + (c.toNat - 48)) 0
    some (if signed.1 then -(v : Int) else (v : Int))
  else
    none

/-- Python replace for `fuel`-bounded left-to-right non-overlapping
substitution of a non-empty pattern. -/
def py_replace_aux : Nat → List Char → List Char → List Char → List Char
  | 0, _, _, cs => cs
  | _ + 1, _, _, [] => []
  | fuel + 1, pat, rep, c :: cs =>
      if (c :: cs).take pat.length = pat then
        rep ++ py_replace_aux fuel pat rep ((c :: cs).drop pat.length)
      else
        c :: py_replace_aux fuel pat rep cs

/-- Python `s.replace(pat, rep)` for a non-empty pattern. -/
def py_replace (s pat rep : String) : String :=
  String.mk (py_replace_aux (s.data.length + 1) pat.data rep.data s.data)

/-- Python `s.split(sep)` for a one-character separator: list of pieces
(never empty). -/
def split_on_char : List Char → Char → List (List Char)
  | [], _ => [[]]
  | c :: rest, sep =>
      let tailPieces := split_on_char rest sep
      if c = sep then
        [] :: tailPieces
      else
        match tailPieces with
        | [] => [[c]]
        | piece :: ps => (c :: piece) :: ps

/-! ## Embedding of `src/multipart/utils.py` -/

/-- The "special" character set of `utils.py`:
the characters of `()<>@,;:"\/[]?={} \t` (note that it contains the double
quote, the backslash, space and tab, and the two braces). -/
def is_special (c : Char) : Bool :=
  c ∈ ['(', ')', '<', '>', '@', ',', ';', ':', '"', '\\', '/', '[', ']', '?',
       '=', '\x7b', '\x7d', ' ', '\t']

/-- Matcher for the regex tail `(?:\\.|[^"])*"` of the quoted-string pattern
`_quoted_string` right after the opening quote, with the backtracking
semantics of Python `re` (the `\\.` alternative is preferred; `.` does not
match a newline; the star is greedy). Returns the consumed characters
(including the closing quote) and the rest of the input. -/
def qs_tail : List Char → Option (List Char × List Char)
  | [] => none
  | c :: rest =>
      (if c = '\\' then
        match rest with
        | d :: rest2 =>
            if d ≠ '\n' then
              (qs_tail rest2).map (fun p => (c :: d :: p.1, p.2))
            else none
        | [] => none
      else none).orElse
      (fun _ =>
        (if c ≠ '"' then
          (qs_tail rest).map (fun p => (c :: p.1, p.2))
        else none).orElse
        (fun _ => if c = '"' then some ([c], rest) else none))

/-- Attempt the value alternative `(?:[^special]+|QUOTED)` of `_re_option` at
the given position; returns `(value characters, rest)`. -/
def value_at (cs : List Char) : Option (List Char × List Char) :=
  match cs with
  | [] => none
  | c :: rest =>
      if ¬ is_special c then
        some (cs.takeWhile (fun d => ¬ is_special d),
              cs.dropWhile (fun d => ¬ is_special d))
      else if c = '"' then
        (qs_tail rest).map (fun p => ('"' :: p.1, p.2))
      else none

/-- Attempt `([^special]+)\s*=\s*VALUE` of `_re_option` at a fixed key start
position; returns `((key, value), rest)`. -/
def key_value_at (cs1 : List Char) : Option ((List Char × List Char) × List Char) :=
  let key := cs1.takeWhile (fun c => ¬ is_special c)
  if key = [] then none
  else
    let cs2 := cs1.drop key.length
    let cs3 := cs2.dropWhile py_space
    match cs3 with
    | '=' :: cs4 =>
        let w3 := cs4.takeWhile py_space
        (List.range (w3.length + 1)).findSome?
          (fun j => (value_at (cs4.drop (w3.length - j))).map (fun p => ((key, p.1), p.2)))
    | _ => none

/-- Attempt `\s*([^special]+)\s*=\s*VALUE` at the given position, trying the
longest leading whitespace run first and backtracking into it, as Python's
greedy `\s*` does. -/
def match_here (cs : List Char) : Option ((List Char × List Char) × List Char) :=
  let w := cs.takeWhile py_space
  (List.range (w.length + 1)).findSome? (fun i => key_value_at (cs.drop (w.length - i)))

/-- Python `dict.__setitem__` on an insertion-ordered association list:
overwrite in place or append. -/
def dict_set : List (String × String) → String → String → List (String × String)
  | [], k, v => [(k, v)]
  | (k0, v0) :: rest, k, v =>
      if k0 = k then (k0, v) :: rest else (k0, v0) :: dict_set rest k v

/-- Python `dict.get`. -/
def dict_get (d : List (String × String)) (k : String) : Option String :=
  (d.find? (fun kv => kv.1 = k)).map (fun kv => kv.2)

/-- `header_unquote` from `utils.py`.  Note that the `filename` parameter is
accepted but never read by the source, so it is never read here either.
(The source indexes `val[0]`/`val[-1]`, which would raise `IndexError` on an
empty string; the empty case is unreachable from `parse_options_header`, and
the embedding returns the value unchanged there.) -/
def header_unquote (val : String) (filename : Bool) : String :=
  let cs := val.data
  match cs with
  | [] => val
  | c :: _ =>
      if c = '"' ∧ cs.getLastD ' ' = '"' then
        let inner := (cs.drop 1).dropLast
        let inner2 :=
          if (inner.drop 1).take 2 = [':', '\\'] ∨ inner.take 2 = ['\\', '\\'] then
            (split_on_char inner '\\').getLastD [] -- fix ie6 bug: full path to filename
          else inner
        py_replace (py_replace (String.mk inner2) ("\\\\") ("\\")) ("\\\"") ("\"")
      else val

/-- `finditer` of `_re_option` over the tail, folding the matches into the
options dict exactly as the loop of `parse_options_header` does.  The fuel is
an upper bound on the scan length; each step consumes at least one character. -/
def scan_options : Nat → Bool → List Char → List (String × String) → List (String × String)
  | 0, _, _, acc => acc
  | fuel + 1, isStart, cs, acc =>
      match cs with
      | [] => acc
      | c :: rest =>
          let attempt :=
            (if c = ';' then match_here rest else none).orElse
            (fun _ => if isStart then match_here (c :: rest) else none)
          match attempt with
          | some ((k, v), rest') =>
              let key := py_lower (String.mk k)
              let value := header_unquote (String.mk v) (key = ("filename"))
              scan_options fuel false rest' (dict_set acc key value)
          | none => scan_options fuel false rest acc

/-- `parse_options_header` from `utils.py`. -/
def parse_options_header (header : String) : String × List (String × String) :=
  if ¬ s_contains header ';' then
    (py_lower (py_strip header), [])
  else
    let ct_tail := s_split_once header ';'
    (ct_tail.1, scan_options (ct_tail.2.data.length + 1) true ct_tail.2.data [])

/-! ## Embedding of `src/sansio_multipart/parser.py` -/

/-- The parser states (`States` enum). -/
inductive States where
  | BUILDING_HEADERS
  | BUILDING_HEADERS_NEED_DATA
  | BUILDING_BODY
  | BUILDING_BODY_NEED_DATA
  | FINISHED
  | ERROR
deriving DecidableEq

/-- The exceptions that the parser code can raise. -/
inductive PyErr where
  | malformedData (msg : String)
  | runtimeError (msg : String)
  | valueError (msg : String)
deriving DecidableEq

/-- The `Part` object, restricted to the attributes the parser assigns.
`headers` (the wsgiref `Headers` view) is derived from `headerlist` and not
stored; `data`/`size` stay empty inside the parser (only callers fill them). -/
structure Part where
  headerlist : List (String × String)
  disposition : Option String
  options : List (String × String)
  name : Option String
  filename : Option String
  content_type : Option String
  charset : String
deriving DecidableEq

/-- `Part.__init__`. -/
def new_part (charset : String) : Part :=
  { headerlist := [], disposition := none, options := [], name := none,
    filename := none, content_type := none, charset := charset }

/-- The `PartData` dataclass. -/
structure PartData where
  raw : Bytes
  size : Nat
deriving DecidableEq

/-- An element of the events queue: a `Part`, a `PartData`, or one of the
`Events` enum values `NEED_DATA` / `FINISHED`. -/
inductive Event where
  | part (p : Part)
  | partData (d : PartData)
  | NEED_DATA
  | FINISHED
deriving DecidableEq

/-- The mutable state of a `MultipartParser` object.  The source attribute
`last_partial_line` is called `last_held_line` here (only renamed: the
original name contains a word the development avoids outside comments). -/
structure MultipartParser where
  separator : Bytes
  terminator : Bytes
  separator_len : Nat
  charset : String
  state : States
  events_queue : List Event
  buffer : Bytes
  last_held_line : Option Bytes
  current_part : Option Part
  expected_part_size : Option Int
  current_part_size : Nat
deriving DecidableEq

/-- `MultipartParser.__init__` with a bytes boundary and the default
`charset="latin1"` (so `to_bytes` is the identity). -/
def mk_multipart (boundary : Bytes) : MultipartParser :=
  { separator := [45, 45] ++ boundary
    terminator := [45, 45] ++ boundary ++ [45, 45]
    separator_len := ([45, 45] ++ boundary).length
    charset := ("latin1")
    state := .BUILDING_HEADERS
    events_queue := []
    buffer := []
    last_held_line := none
    current_part := none
    expected_part_size := none
    current_part_size := 0 }

/-- `wsgiref.headers.Headers.get`: first pair whose name matches
case-insensitively. -/
def headers_get (hl : List (String × String)) (name : String) : Option String :=
  ((hl.find? (fun kv => py_lower kv.1 = py_lower name))).map (fun kv => kv.2)

/-- The blank-line closing step of `_construct_part` on the part under
construction: parse `Content-Disposition` and `Content-Type` and fill in the
derived attributes (the headerlist is already complete at this point). -/
def close_part (part : Part) : Part :=
  let cd := (headers_get part.headerlist ("Content-Disposition")).getD ("")
  let ct := (headers_get part.headerlist ("Content-Type")).getD ("")
  let disp_opts := parse_options_header cd
  let ct_opts := parse_options_header ct
  { part with
    disposition := some disp_opts.1
    options := disp_opts.2
    name := dict_get disp_opts.2 ("name")
    filename := dict_get disp_opts.2 ("filename")
    content_type := some ct_opts.1
    charset :=
      match dict_get ct_opts.2 ("charset") with
      | some s => if s = ("") then part.charset else s
      | none => part.charset }

/-- `MultipartParser._construct_part`: feed one `(line, newline)` pair of the
header section into the part under construction.  Errors carry the parser as
mutated up to the raise point. -/
def construct_part (p : MultipartParser) (part : Part) (line : Bytes) (nl : Bytes) :
    Except (PyErr × MultipartParser) (MultipartParser × Part) :=
  let lineStr := decode_latin1 line
  if nl = [] then
    .ok ({ p with state := .BUILDING_HEADERS_NEED_DATA }, part)
  else if py_strip lineStr = ("") then
    -- blank line: end of header segment
    let cd := (headers_get part.headerlist ("Content-Disposition")).getD ("")
    if cd = ("") then
      .error (.malformedData ("Content-Disposition header is missing."), p)
    else
      let part' := close_part part
      match headers_get part.headerlist ("Content-Length") with
      | some v =>
          match py_int v with
          | some n =>
              .ok ({ p with expected_part_size := some n, current_part := none,
                            state := .BUILDING_BODY }, part')
          | none =>
              .error (.valueError ("invalid literal for int() with base 10"),
                      { p with current_part := some part' })
      | none =>
          .ok ({ p with current_part := none, state := .BUILDING_BODY }, part')
  else if ¬ s_contains lineStr ':' then
    .error (.malformedData ("Syntax error in header: No colon."), p)
  else
    let nv := s_split_once lineStr ':'
    let part' := { part with headerlist := part.headerlist ++ [(py_strip nv.1, py_strip nv.2)] }
    .ok ({ p with current_part := some part' }, part')

/-- The generator expression of `_parse_part` that skips leading blank lines:
first pair with a non-empty line, with `((b"", b""), …)` as the default. -/
def skip_empty : List Line → (Line × List Line)
  | [] => (([], []), [])
  | (l, nl) :: rest => if l = [] then skip_empty rest else ((l, nl), rest)

/-- The `for line, newline in lines:` loop of `_parse_part`.  The result is
the mutated parser, the constructed part if the header block closed, and the
lines the loop left unconsumed on the underlying iterator. -/
def part_loop (p : MultipartParser) (part : Part) :
    List Line → Except (PyErr × MultipartParser) (MultipartParser × Option Part × List Line)
  | [] =>
      -- for-else: data exhausted before the part could be built
      .ok ({ p with state := .BUILDING_HEADERS_NEED_DATA }, none, [])
  | (line, nl) :: rest =>
      match construct_part p part line nl with
      | .error ep => .error ep
      | .ok (p', part') =>
          if p'.state = .BUILDING_HEADERS_NEED_DATA then
            .ok ({ p' with buffer := p'.buffer ++ line ++ nl ++ join_lines rest }, none, [])
          else if p'.state = .BUILDING_BODY then
            .ok ({ p' with buffer := join_lines rest }, some part', [])
          else
            part_loop p' part' rest

/-- `MultipartParser._parse_part`. -/
def parse_part (p : MultipartParser) (lines : List Line) :
    Except (PyErr × MultipartParser) (MultipartParser × Option Part × List Line) :=
  match skip_empty lines with
  | ((msep, fnl), rest) =>
      if fnl = [] then
        -- not a full first line yet
        .ok ({ p with buffer := p.buffer ++ msep ++ fnl,
                      state := .BUILDING_HEADERS_NEED_DATA }, none, rest)
      else if msep ≠ p.separator ∧ msep.length ≥ p.separator_len then
        .error (.malformedData ("Part does not start with boundary"), p)
      else
        let part := p.current_part.getD (new_part p.charset)
        part_loop { p with buffer := p.buffer ++ msep ++ fnl, current_part := some part }
          part rest

/-- `MultipartParser._regulate_content_length`. -/
def regulate_content_length (p : MultipartParser) (line_size : Nat) :
    Except (PyErr × MultipartParser) MultipartParser :=
  match p.expected_part_size with
  | none => .ok p
  | some n =>
      let p' := { p with current_part_size := p.current_part_size + line_size }
      if (p'.current_part_size : Int) > n then
        .error (.malformedData ("Size of part body exceeds part Content-Length."), p')
      else
        .ok p'

/-- The `for line, newline in lines:` loop of `_build_part_data`, carrying the
local `part_data_buffer` and `previous_newline`.  Returns the mutated parser,
the accumulated buffer, and the lines left unconsumed on the iterator. -/
def bpd_loop (p : MultipartParser) (buf : Bytes) (prev_nl : Bytes) :
    List Line → Except (PyErr × MultipartParser) (MultipartParser × Bytes × List Line)
  | [] => .ok (p, buf, [])
  | (line0, nl) :: rest =>
      let withHeld : MultipartParser × Bytes :=
        match p.last_held_line with
        | some held => ({ p with last_held_line := none }, held ++ line0)
        | none => (p, line0)
      let q := withHeld.1
      let line := withHeld.2
      if line = q.terminator then
        .ok ({ q with state := .FINISHED, current_part_size := 0,
                      expected_part_size := none }, buf, rest)
      else if line = q.separator then
        .ok ({ q with buffer := q.buffer ++ line ++ nl ++ join_lines rest,
                      state := .BUILDING_HEADERS, current_part_size := 0,
                      expected_part_size := none }, buf, [])
      else if nl = [] then
        if line.length < q.separator_len then
          bpd_loop { q with last_held_line := some line,
                            state := .BUILDING_BODY_NEED_DATA } buf prev_nl rest
        else
          -- an unterminated line at least as long as the separator:
          -- neither emitted, nor stashed, nor buffered
          bpd_loop q buf prev_nl rest
      else
        match regulate_content_length q line.length with
        | .error ep => .error ep
        | .ok q' => bpd_loop q' (buf ++ prev_nl ++ line) nl rest

/-- `MultipartParser._build_part_data`. -/
def build_part_data (p : MultipartParser) (lines : List Line) :
    Except (PyErr × MultipartParser) (MultipartParser × Option PartData × List Line) :=
  match bpd_loop p [] [] lines with
  | .error ep => .error ep
  | .ok (p', buf, rest) =>
      if buf ≠ [] then
        let p'' :=
          if p'.state ≠ .BUILDING_HEADERS ∧ p'.state ≠ .FINISHED then
            { p' with state := .BUILDING_BODY_NEED_DATA }
          else p'
        .ok (p'', some { raw := buf, size := buf.length }, rest)
      else
        .ok (p', none, rest)

/-- Outcome of a `_queue_events` call: normal return, a raised exception
(with the parser as left behind by the `except` clause), or non-termination
of the `while True:` loop (fuel exhausted). -/
inductive FeedResult where
  | ok (p : MultipartParser)
  | err (p : MultipartParser) (e : PyErr)
  | hang
deriving DecidableEq

/-- Start of a `_queue_events` loop iteration: prepend the carry-over buffer
to the remaining lines of the chunk iterator and clear it. -/
def prepend_buffer (p : MultipartParser) (lines : List Line) : MultipartParser × List Line :=
  if p.buffer ≠ [] then
    ({ p with buffer := [] }, separate_newlines p.buffer ++ lines)
  else (p, lines)

/-- The state dispatch of one `_queue_events` loop iteration: attempt to
build and queue a `Part` or `PartData` depending on the current state. -/
def feed_dispatch (p : MultipartParser) (lines : List Line) :
    Except (PyErr × MultipartParser) (MultipartParser × List Line) :=
  if p.state = .BUILDING_HEADERS then
    match parse_part p lines with
    | .error ep => .error ep
    | .ok (p', maybePart, rest) =>
        match maybePart with
        | some pt => .ok ({ p' with events_queue := p'.events_queue ++ [.part pt] }, rest)
        | none => .ok (p', rest)
  else if p.state = .BUILDING_BODY then
    match build_part_data p lines with
    | .error ep => .error ep
    | .ok (p', maybeData, rest) =>
        match maybeData with
        | some d => .ok ({ p' with events_queue := p'.events_queue ++ [.partData d] }, rest)
        | none => .ok (p', rest)
  else .ok (p, lines)

/-- The `while True:` loop of `_queue_events`, one constructor application of
fuel per iteration; the `except` clause shows up as the `.error` case. -/
def queue_events_loop : Nat → MultipartParser → List Line → FeedResult
  | 0, _, _ => .hang
  | fuel + 1, p0, lines0 =>
      match feed_dispatch (prepend_buffer p0 lines0).1 (prepend_buffer p0 lines0).2 with
      | .error (e, pe) => .err { pe with state := .ERROR } e
      | .ok (p', rest) =>
          if p'.state = .BUILDING_HEADERS_NEED_DATA then
            .ok { p' with events_queue := p'.events_queue ++ [.NEED_DATA],
                          state := .BUILDING_HEADERS }
          else if p'.state = .BUILDING_BODY_NEED_DATA then
            .ok { p' with events_queue := p'.events_queue ++ [.NEED_DATA],
                          state := .BUILDING_BODY }
          else if p'.state = .FINISHED then
            .ok { p' with events_queue := p'.events_queue ++ [.FINISHED] }
          else
            queue_events_loop fuel p' rest

/-- `MultipartParser._queue_events` (the body of `recv`/`parse`): raise at
once in `ERROR` state, otherwise prepend the carry-over buffer to the chunk
and run the loop.  The fuel `|buffer| + |chunk| + 4` exceeds the number of
iterations of every terminating run, since after at most two consecutive
iterations the loop either stops or shortens the remaining lines. -/
def queue_events (p : MultipartParser) (chunk : Bytes) : FeedResult :=
  if p.state = .ERROR then
    .err p (.runtimeError ("Cannot use parser in ERROR state."))
  else
    let chunk' := p.buffer ++ chunk
    queue_events_loop (chunk'.length + 4) { p with buffer := [] } (separate_newlines chunk')

/-- `MultipartParser.recv` — same as `parse` up to draining the queue, both
delegate to `_queue_events`. -/
def recv (p : MultipartParser) (chunk : Bytes) : FeedResult :=
  queue_events p chunk

/-- `MultipartParser.next_event`. -/
def next_event (p : MultipartParser) : MultipartParser × Event :=
  match p.events_queue with
  | [] => (p, if p.state ≠ .FINISHED then .NEED_DATA else .FINISHED)
  | e :: rest => ({ p with events_queue := rest }, e)

/-! ## Observers used by the claim statements -/

/-- Bytes of an ASCII string, for writing concrete inputs. -/
def sb (s : String) : Bytes := s.data.map Char.toNat

/-- The events queue of a successful feed, `none` on error or hang. -/
def events_of : FeedResult → Option (List Event)
  | .ok p => some p.events_queue
  | _ => none

/-- Continue a run with another feed when the previous one succeeded. -/
def after_ok (r : FeedResult) (k : MultipartParser → FeedResult) : FeedResult :=
  match r with
  | .ok p => k p
  | r => r

/-- The parser of a successful feed, with a dummy fallback. -/
def parser_of (r : FeedResult) : MultipartParser :=
  match r with
  | .ok p => p
  | .err p _ => p
  | .hang => mk_multipart []

/-- Drop the `NEED_DATA` events from an event sequence. -/
def non_need_data (evs : List Event) : List Event :=
  evs.filter (fun e => e ≠ Event.NEED_DATA)

/-- The substring before the first `;` (for stating what the principal of
`parse_options_header` actually is). -/
def before_semicolon (s : String) : String :=
  String.mk (s.data.takeWhile (fun c => c ≠ ';'))

/-! ## Concrete runs used by the claims -/

/-- Boundary `X` used by the concrete scenarios. -/
def bX : Bytes := sb ("X")

/-- The `Part` object produced for the header
`Content-Disposition: form-data; name="a"`. -/
def part_a : Part :=
  { headerlist := [(("Content-Disposition"), ("form-data; name=\"a\""))]
    disposition := some ("form-data")
    options := [(("name"), ("a"))]
    name := some ("a")
    filename := none
    content_type := some ("")
    charset := ("latin1") }

/-- The `Part` object produced for the header `Content-Disposition: x`. -/
def part_x : Part :=
  { headerlist := [(("Content-Disposition"), ("x"))]
    disposition := some ("x")
    options := []
    name := none
    filename := none
    content_type := some ("")
    charset := ("latin1") }

/-- Valid single-part input with body `A\r\nB\r\n` (terminators CRLF). -/
def c1_input : Bytes :=
  sb ("--X\r\nContent-Disposition: form-data; name=\"a\"\r\n\r\nA\r\nB\r\n--X--\r\n")

/-- First chunk of a two-chunk split of `c1_input` at a line boundary inside
the body. -/
def c1_chunk1 : Bytes :=
  sb ("--X\r\nContent-Disposition: form-data; name=\"a\"\r\n\r\nA\r\n")

/-- Second chunk of the split. -/
def c1_chunk2 : Bytes := sb ("B\r\n--X--\r\n")

/-- A parser that has consumed a complete header block plus one body line and
sits in `BUILDING_BODY` (via a genuine feed). -/
def body_state_p : MultipartParser :=
  parser_of (recv (mk_multipart bX) (sb ("--X\r\nContent-Disposition: x\r\n\r\nQ\r\n")))

/-! ## Helper lemmas -/

/-- A parser in `BUILDING_BODY` with an empty carry-over buffer and no
remaining lines makes no progress: the `while True:` loop of `_queue_events`
repeats for ever with an unchanged parser. -/
theorem loop_empty_body_hang :
    ∀ (fuel : Nat) (p : MultipartParser), p.state = .BUILDING_BODY → p.buffer = [] →
      queue_events_loop fuel p [] = .hang := by
  intro fuel
  induction fuel with
  | zero => intro p _ _; rfl
  | succ n ih =>
      intro p hs hb
      have hpre : prepend_buffer p [] = (p, []) := by
        simp [prepend_buffer, hb]
      have hdis : feed_dispatch p [] = .ok (p, []) := by
        simp [feed_dispatch, hs, build_part_data, bpd_loop]
      rw [queue_events_loop, hpre, hdis]
      simp only [hs]
      exact ih p hs hb

/-! ## Claim C5 -/

/-- C5 counterexample: when the header contains a `;`, `parse_options_header`
returns the raw left side of the split — here `Form-Data`, which is neither
lowercased nor equal to the lowercased trimmed substring before the `;`. -/
theorem c5_principal_not_lowered :
    parse_options_header ("Form-Data; name=x") = (("Form-Data"), [(("name"), ("x"))]) ∧
    ("Form-Data" : String) ≠ py_lower (py_strip ("Form-Data")) := by
  exact ⟨by decide, by decide⟩

/-- C5 (amended): with no `;`, `parse_options_header` returns the lowercased,
trimmed header with an empty options mapping; with a `;`, the principal is the
raw substring before the first `;`, not lowercased and not trimmed. -/
theorem c5_principal (h : String) :
    (s_contains h ';' = true → (parse_options_header h).1 = before_semicolon h) ∧
    (s_contains h ';' = false → parse_options_header h = (py_lower (py_strip h), [])) := by
  constructor
  · intro hc
    have hcond : ¬ ¬ (s_contains h ';' = true) := fun hn => hn hc
    unfold parse_options_header
    rw [if_neg hcond]
    rfl
  · intro hc
    have hcond : ¬ (s_contains h ';' = true) := by simp [hc]
    unfold parse_options_header
    rw [if_pos hcond]

/-- C5 witness: the amended statement applied at `A; n=v` (semicolon present)
and at ` TeXt ` (no semicolon). -/
theorem c5_principal_instance :
    (parse_options_header ("A; n=v")).1 = before_semicolon ("A; n=v") ∧
    parse_options_header (" TeXt ") = (("text"), []) := by
  constructor
  · exact (c5_principal ("A; n=v")).1 rfl
  · have h := (c5_principal (" TeXt ")).2 rfl
    exact h.trans (by decide)

/-! ## Claim C6 -/

/-- C6: `header_unquote` applies the IE-6 full-path strip to every quoted
value whose content matches the drive-letter or UNC shape, regardless of the
`filename` flag: the flag is never read, and a quoted `name` option value is
stripped down to its last backslash component just like a `filename`. -/
theorem c6_ie6_strip_ignores_key :
    header_unquote ("\"a:\\b\\c\"") false = ("c") ∧
    (∀ (v : String) (f g : Bool), header_unquote v f = header_unquote v g) ∧
    parse_options_header ("x; name=\"a:\\b\\c\"") = (("x"), [(("name"), ("c"))]) := by
  refine ⟨by decide, ?_, by decide⟩
  intro v f g
  rfl

/-! ## Claim C1 -/

/-- C1: chunking is not invariant.  Feeding `c1_input` in one piece emits the
body `A\r\nB` as one `PartData`; feeding the same bytes split at a body line
boundary emits `A` and then `B`, silently losing the `\r\n` between them
(the local `previous_newline` of `_build_part_data` is not carried across
`feed` calls), so the two event sequences differ even after dropping
`NEED_DATA`. -/
theorem c1_chunking_not_invariant :
    c1_chunk1 ++ c1_chunk2 = c1_input ∧
    events_of (recv (mk_multipart bX) c1_input) =
      some [.part part_a, .partData { raw := sb ("A\r\nB"), size := 4 }, .FINISHED] ∧
    events_of (after_ok (recv (mk_multipart bX) c1_chunk1) (fun p => recv p c1_chunk2)) =
      some [.part part_a, .partData { raw := sb ("A"), size := 1 }, .NEED_DATA,
            .partData { raw := sb ("B"), size := 1 }, .FINISHED] ∧
    non_need_data [.part part_a, .partData { raw := sb ("A\r\nB"), size := 4 }, .FINISHED] ≠
      non_need_data [.part part_a, .partData { raw := sb ("A"), size := 1 }, .NEED_DATA,
            .partData { raw := sb ("B"), size := 1 }, .FINISHED] := by
  exact ⟨by decide, by decide, by decide, by decide⟩

/-! ## Claim C3 -/

/-- C3: an unterminated trailing body line whose length is not strictly below
`len(separator)` is neither emitted, nor stashed in `last_partial_line`, nor
buffered — its bytes are dropped, and the feed call never returns (for every
amount of fuel the loop keeps running).  Here the line is `abc`, exactly
`len(separator)` bytes long. -/
theorem c3_long_fragment_dropped :
    body_state_p.state = .BUILDING_BODY ∧
    (sb ("abc")).length = body_state_p.separator_len ∧
    build_part_data body_state_p (separate_newlines (sb ("abc"))) =
      .ok (body_state_p, none, []) ∧
    (∀ fuel, queue_events_loop fuel body_state_p (separate_newlines (sb ("abc"))) = .hang) ∧
    recv body_state_p (sb ("abc")) = .hang := by
  refine ⟨by decide, by decide, rfl, ?_, by decide⟩
  intro fuel
  cases fuel with
  | zero => rfl
  | succ n =>
      have step : queue_events_loop (n + 1) body_state_p (separate_newlines (sb ("abc"))) =
          queue_events_loop n body_state_p [] := rfl
      rw [step]
      exact loop_empty_body_hang n body_state_p (by decide) (by decide)

/-! ## Claim C4 -/

/-- Single-part input declaring `Content-Length: 2` whose body payload is the
two bytes `A`, `B` spread over two lines. -/
def c4_input : Bytes :=
  sb ("--X\r\nContent-Disposition: x\r\nContent-Length: 2\r\n\r\nA\r\nB\r\n--X--\r\n")

/-- The `Part` object for the headers of `c4_input`. -/
def part_x_cl2 : Part :=
  { headerlist := [(("Content-Disposition"), ("x")), (("Content-Length"), ("2"))]
    disposition := some ("x")
    options := []
    name := none
    filename := none
    content_type := some ("")
    charset := ("latin1") }

/-- C4 counterexample: for the part of `c4_input` (declared `Content-Length`
2) the single emitted `PartData` carries 4 bytes `A\r\nB` — the emitted body
bytes exceed the declared length without any error, because the policing
counts payload bytes only while the emitted bytes contain the reinserted
line terminator. -/
theorem c4_emitted_exceeds_declared :
    events_of (recv (mk_multipart bX) c4_input) =
      some [.part part_x_cl2, .partData { raw := sb ("A\r\nB"), size := 4 }, .FINISHED] ∧
    headers_get part_x_cl2.headerlist ("Content-Length") = some ("2") ∧
    py_int ("2") = some 2 ∧
    ¬ ((({ raw := sb ("A\r\nB"), size := 4 } : PartData).size : Int) ≤ 2) := by
  exact ⟨by decide, by decide, by decide, by decide⟩

/-- `_regulate_content_length` keeps `current_part_size` (the payload count)
within the declared length whenever it returns normally. -/
theorem regulate_ok_inv (p q : MultipartParser) (s : Nat)
    (h : regulate_content_length p s = .ok q) :
    ∀ n, q.expected_part_size = some n → (q.current_part_size : Int) ≤ n := by
  cases hexp : p.expected_part_size with
  | none =>
      simp only [regulate_content_length, hexp] at h
      injection h with hq
      subst hq
      intro n hn
      rw [hexp] at hn
      cases hn
  | some m =>
      simp only [regulate_content_length, hexp] at h
      split_ifs at h with hgt
      injection h with hq
      subst hq
      intro n hn
      simp only [hexp] at hn
      injection hn with hmn
      subst hmn
      simp only [gt_iff_lt, not_lt] at hgt
      exact hgt

/-- `_regulate_content_length` raises exactly the Content-Length message, and
only when a declared length is present and the payload count has just
exceeded it. -/
theorem regulate_err (p q : MultipartParser) (s : Nat) (e : PyErr)
    (h : regulate_content_length p s = .error (e, q)) :
    e = .malformedData ("Size of part body exceeds part Content-Length.") ∧
    q.expected_part_size ≠ none ∧
    ∀ n, q.expected_part_size = some n → n < (q.current_part_size : Int) := by
  cases hexp : p.expected_part_size with
  | none =>
      simp only [regulate_content_length, hexp] at h
      cases h
  | some m =>
      simp only [regulate_content_length, hexp] at h
      split_ifs at h with hgt
      injection h with hpair
      injection hpair with he hq
      subst he
      subst hq
      refine ⟨rfl, by simp [hexp], ?_⟩
      intro n hn
      simp only [hexp] at hn
      injection hn with hmn
      subst hmn
      simpa using hgt

/-- C4 (amended): during body building the cumulative count of emitted
payload bytes (line bytes, excluding terminators) never exceeds a declared
`Content-Length`; the only exception `_build_part_data` can raise is
`MalformedData` for a part body whose payload would exceed the declared
length, raised exactly when the count first passes it.  (The raw bytes of
`PartData` events additionally contain the reinserted line terminators and
may exceed the declared length, as the counterexample shows.) -/
theorem c4_payload_policing (lines : List Line) :
    ∀ (p : MultipartParser) (buf prev_nl : Bytes),
      (∀ n, p.expected_part_size = some n → (p.current_part_size : Int) ≤ n) →
      (∀ q b r, bpd_loop p buf prev_nl lines = .ok (q, b, r) →
          ∀ n, q.expected_part_size = some n → (q.current_part_size : Int) ≤ n) ∧
      (∀ e q, bpd_loop p buf prev_nl lines = .error (e, q) →
          e = .malformedData ("Size of part body exceeds part Content-Length.") ∧
          q.expected_part_size ≠ none ∧
          ∀ n, q.expected_part_size = some n → n < (q.current_part_size : Int)) := by
  induction lines with
  | nil =>
      intro p buf prev_nl hinv
      constructor
      · intro q b r h
        injection h with h1
        injection h1 with hq _
        subst hq
        exact hinv
      · intro e q h
        cases h
  | cons hd rest ih =>
      obtain ⟨line0, nl⟩ := hd
      intro p buf prev_nl hinv
      cases hheld : p.last_held_line with
      | some held =>
          simp only [bpd_loop, hheld]
          split_ifs with h1 h2 h3 h4
          · constructor
            · intro q b r h
              injection h with h1'
              injection h1' with hq _
              subst hq
              intro n hn
              cases hn
            · intro e q h
              cases h
          · constructor
            · intro q b r h
              injection h with h1'
              injection h1' with hq _
              subst hq
              intro n hn
              cases hn
            · intro e q h
              cases h
          · exact ih _ buf prev_nl (fun n hn => hinv n hn)
          · exact ih _ buf prev_nl (fun n hn => hinv n hn)
          · cases hreg : regulate_content_length { p with last_held_line := none }
                (held ++ line0).length with
            | error ep =>
                obtain ⟨e', q'⟩ := ep
                simp only [hreg]
                constructor
                · intro q b r h
                  cases h
                · intro e q h
                  injection h with h1'
                  injection h1' with he hq
                  subst he
                  subst hq
                  exact regulate_err _ _ _ _ hreg
            | ok q' =>
                simp only [hreg]
                exact ih q' _ nl (regulate_ok_inv _ _ _ hreg)
      | none =>
          simp only [bpd_loop, hheld]
          split_ifs with h1 h2 h3 h4
          · constructor
            · intro q b r h
              injection h with h1'
              injection h1' with hq _
              subst hq
              intro n hn
              cases hn
            · intro e q h
              cases h
          · constructor
            · intro q b r h
              injection h with h1'
              injection h1' with hq _
              subst hq
              intro n hn
              cases hn
            · intro e q h
              cases h
          · exact ih _ buf prev_nl (fun n hn => hinv n hn)
          · exact ih _ buf prev_nl (fun n hn => hinv n hn)
          · cases hreg : regulate_content_length p line0.length with
            | error ep =>
                obtain ⟨e', q'⟩ := ep
                simp only [hreg]
                constructor
                · intro q b r h
                  cases h
                · intro e q h
                  injection h with h1'
                  injection h1' with he hq
                  subst he
                  subst hq
                  exact regulate_err _ _ _ _ hreg
            | ok q' =>
                simp only [hreg]
                exact ih q' _ nl (regulate_ok_inv _ _ _ hreg)

/-- Parser sitting in body state with a declared `Content-Length` of 2 and no
payload counted yet. -/
def c4_exceed_p : MultipartParser :=
  { mk_multipart bX with state := .BUILDING_BODY, expected_part_size := some 2 }

/-- One terminated body line with 3 payload bytes. -/
def c4_exceed_lines : List Line := [((sb ("ABC")), [13, 10])]

/-- The parser at the raise point of the overflow. -/
def c4_err_p : MultipartParser := { c4_exceed_p with current_part_size := 3 }

/-- C4 witness: the policing theorem applied at a concrete 3-byte body line
against a declared length of 2. -/
theorem c4_payload_policing_instance :
    c4_err_p.expected_part_size ≠ none ∧ (2 : Int) < (c4_err_p.current_part_size : Int) := by
  have h := (c4_payload_policing c4_exceed_lines c4_exceed_p [] []
      (fun n hn => by
        rw [show c4_exceed_p.expected_part_size = some 2 from rfl] at hn
        injection hn with h2
        subst h2
        decide)).2
      (.malformedData ("Size of part body exceeds part Content-Length.")) c4_err_p rfl
  exact ⟨h.2.1, h.2.2 2 rfl⟩

/-! ## Claim C9 -/

/-- Valid single-part input with an empty body. -/
def c9_input : Bytes := sb ("--X\r\nContent-Disposition: x\r\n\r\n--X--\r\n")

/-- C9 counterexample: one feed of the whole input enqueues `FINISHED` once;
a second feed call on the finished parser enqueues `FINISHED` again, so over
the two feed calls the event is enqueued twice. -/
theorem c9_finished_enqueued_again :
    events_of (recv (mk_multipart bX) c9_input) = some [.part part_x, .FINISHED] ∧
    events_of (after_ok (recv (mk_multipart bX) c9_input) (fun p => recv p [])) =
      some [.part part_x, .FINISHED, .FINISHED] := by
  exact ⟨by decide, by decide⟩

/-- C9 (amended): the feed call that consumes the terminator enqueues exactly
one `FINISHED` and enqueues nothing after it; but `FINISHED` is re-enqueued
once per further feed call on the finished parser (which otherwise changes
nothing except discarding the carry-over buffer). -/
theorem c9_finished_per_feed :
    (∀ (p : MultipartParser) (chunk : Bytes), p.state = .FINISHED →
        queue_events p chunk =
          .ok { p with buffer := [], events_queue := p.events_queue ++ [.FINISHED] }) ∧
    events_of (recv (mk_multipart bX) c9_input) = some [.part part_x, .FINISHED] := by
  constructor
  · intro p chunk hs
    unfold queue_events
    rw [if_neg (by rw [hs]; intro hcon; cases hcon)]
    show queue_events_loop ((p.buffer ++ chunk).length + 3 + 1) _ _ = _
    rw [queue_events_loop]
    have hpre : prepend_buffer { p with buffer := [] }
        (separate_newlines (p.buffer ++ chunk)) =
        ({ p with buffer := [] }, separate_newlines (p.buffer ++ chunk)) := by
      simp [prepend_buffer]
    rw [hpre]
    have hdis : feed_dispatch { p with buffer := [] }
        (separate_newlines (p.buffer ++ chunk)) =
        .ok ({ p with buffer := [] }, separate_newlines (p.buffer ++ chunk)) := by
      simp [feed_dispatch, hs]
    rw [hdis]
    simp [hs]
  · decide

/-- The parser left by a completed parse of `c9_input`. -/
def fin_p : MultipartParser := parser_of (recv (mk_multipart bX) c9_input)

/-- C9 witness: the amended statement applied to the concrete finished
parser. -/
theorem c9_finished_per_feed_instance :
    queue_events fin_p [] =
      .ok { fin_p with buffer := [], events_queue := fin_p.events_queue ++ [.FINISHED] } :=
  c9_finished_per_feed.1 fin_p [] (by decide)

/-! ## Claim C8 -/

/-- C8: every exception surfacing from `_queue_events` leaves the parser in
the `ERROR` state, and `ERROR` is absorbing — a feed (`recv`/`parse`, both
delegate here) on a parser in `ERROR` state raises `RuntimeError` at once and
changes nothing. -/
theorem c8_error_absorbing :
    (∀ (fuel : Nat) (p : MultipartParser) (lines : List Line) (q : MultipartParser) (e : PyErr),
        queue_events_loop fuel p lines = .err q e → q.state = .ERROR) ∧
    (∀ (p : MultipartParser) (chunk : Bytes) (q : MultipartParser) (e : PyErr),
        queue_events p chunk = .err q e → q.state = .ERROR) ∧
    (∀ (p : MultipartParser) (chunk : Bytes), p.state = .ERROR →
        queue_events p chunk = .err p (.runtimeError ("Cannot use parser in ERROR state."))) := by
  have hloop : ∀ (fuel : Nat) (p : MultipartParser) (lines : List Line)
      (q : MultipartParser) (e : PyErr),
      queue_events_loop fuel p lines = .err q e → q.state = .ERROR := by
    intro fuel
    induction fuel with
    | zero =>
        intro p lines q e h
        exact FeedResult.noConfusion h
    | succ n ih =>
        intro p lines q e h
        rw [queue_events_loop] at h
        cases hd : feed_dispatch (prepend_buffer p lines).1 (prepend_buffer p lines).2 with
        | error ep =>
            obtain ⟨e', pe⟩ := ep
            simp only [hd] at h
            injection h with hq he
            subst hq
            rfl
        | ok pr =>
            obtain ⟨p', rest⟩ := pr
            simp only [hd] at h
            split_ifs at h <;>
              first
              | exact FeedResult.noConfusion h
              | exact ih p' rest q e h
  refine ⟨hloop, ?_, ?_⟩
  · intro p chunk q e h
    unfold queue_events at h
    split_ifs at h with herr
    · injection h with hq he
      subst hq
      exact herr
    · exact hloop _ _ _ _ _ h
  · intro p chunk herr
    unfold queue_events
    rw [if_pos herr]

/-- The parser left behind by a feed that raised (missing colon in a header
line). -/
def err_state_p : MultipartParser :=
  parser_of (recv (mk_multipart bX) (sb ("--X\r\nnope\r\n")))

/-- C8 witness: the absorbing clause applied to the concrete parser that a
raising feed left behind. -/
theorem c8_error_absorbing_instance :
    err_state_p.state = .ERROR ∧
    queue_events err_state_p [] =
      .err err_state_p (.runtimeError ("Cannot use parser in ERROR state.")) :=
  ⟨by decide, c8_error_absorbing.2.2 err_state_p [] (by decide)⟩

/-! ## Claims C7 and C10 -/

/-- Any exception out of `_construct_part` is never the boundary-mismatch
message (it is the missing `Content-Disposition`, the missing colon, or the
`int()` failure on `Content-Length`). -/
theorem construct_part_error_not_boundary (p : MultipartParser) (part : Part)
    (line nl : Bytes) (e : PyErr) (q : MultipartParser)
    (h : construct_part p part line nl = .error (e, q)) :
    e ≠ .malformedData ("Part does not start with boundary") := by
  unfold construct_part at h
  by_cases h1 : nl = []
  · rw [if_pos h1] at h
    exact Except.noConfusion h
  · rw [if_neg h1] at h
    by_cases h2 : py_strip (decode_latin1 line) = ("")
    · rw [if_pos h2] at h
      by_cases h3 : (headers_get part.headerlist ("Content-Disposition")).getD ("") = ("")
      · rw [if_pos h3] at h
        injection h with hpair
        injection hpair with he hq
        subst he
        decide
      · rw [if_neg h3] at h
        cases hcl : headers_get part.headerlist ("Content-Length") with
        | none =>
            simp only [hcl] at h
            exact Except.noConfusion h
        | some v =>
            simp only [hcl] at h
            cases hint : py_int v with
            | some n =>
                simp only [hint] at h
                exact Except.noConfusion h
            | none =>
                simp only [hint] at h
                injection h with hpair
                injection hpair with he hq
                subst he
                decide
    · rw [if_neg h2] at h
      by_cases h4 : ¬ (s_contains (decode_latin1 line) ':' = true)
      · rw [if_pos h4] at h
        injection h with hpair
        injection hpair with he hq
        subst he
        decide
      · rw [if_neg h4] at h
        exact Except.noConfusion h

/-- Exceptions out of the header loop of `_parse_part` are never the
boundary-mismatch message. -/
theorem part_loop_error_not_boundary :
    ∀ (ls : List Line) (p : MultipartParser) (part : Part) (e : PyErr) (q : MultipartParser),
      part_loop p part ls = .error (e, q) →
      e ≠ .malformedData ("Part does not start with boundary") := by
  intro ls
  induction ls with
  | nil =>
      intro p part e q h
      exact Except.noConfusion h
  | cons hd rest ih =>
      obtain ⟨line, nl⟩ := hd
      intro p part e q h
      simp only [part_loop] at h
      cases hc : construct_part p part line nl with
      | error ep =>
          obtain ⟨e', q'⟩ := ep
          simp only [hc] at h
          injection h with hpair
          injection hpair with he hq
          subst he
          exact construct_part_error_not_boundary _ _ _ _ _ _ hc
      | ok pq =>
          obtain ⟨p', part'⟩ := pq
          simp only [hc] at h
          split_ifs at h <;>
            first
            | exact Except.noConfusion h
            | exact ih _ _ _ _ h

/-- C7: in header-building state, when the first non-empty complete line is
not the separator and at least as long as it, `_parse_part` raises
`MalformedData("Part does not start with boundary")`; when it is the
separator, the line is consumed (buffered as the part opening) and the
remaining lines are processed as the part's header lines, and no
boundary-mismatch error can arise from that processing. -/
theorem c7_opening_line_check (p : MultipartParser) (lines : List Line)
    (l nl : Bytes) (rest : List Line)
    (hskip : skip_empty lines = ((l, nl), rest)) (hnl : nl ≠ []) :
    (l ≠ p.separator → l.length ≥ p.separator_len →
        parse_part p lines = .error (.malformedData ("Part does not start with boundary"), p)) ∧
    (l = p.separator →
        parse_part p lines =
          part_loop { p with buffer := p.buffer ++ l ++ nl,
                             current_part := some (p.current_part.getD (new_part p.charset)) }
            (p.current_part.getD (new_part p.charset)) rest ∧
        ∀ e q, parse_part p lines = .error (e, q) →
          e ≠ .malformedData ("Part does not start with boundary")) := by
  constructor
  · intro hne hlen
    simp only [parse_part, hskip]
    rw [if_neg hnl, if_pos ⟨hne, hlen⟩]
  · intro heq
    have hcond : ¬ (l ≠ p.separator ∧ l.length ≥ p.separator_len) :=
      fun hcon => hcon.1 heq
    constructor
    · simp only [parse_part, hskip]
      rw [if_neg hnl, if_neg hcond]
    · intro e q herr
      simp only [parse_part, hskip] at herr
      rw [if_neg hnl, if_neg hcond] at herr
      exact part_loop_error_not_boundary _ _ _ _ _ herr

/-- C7 witness: the boundary check applied to the concrete line `--WRONG`
against boundary `X`. -/
theorem c7_opening_line_check_instance :
    parse_part (mk_multipart bX) [((sb ("--WRONG")), [13, 10])] =
      .error (.malformedData ("Part does not start with boundary"), mk_multipart bX) :=
  (c7_opening_line_check (mk_multipart bX) [((sb ("--WRONG")), [13, 10])]
    (sb ("--WRONG")) [13, 10] [] (by decide) (by decide)).1 (by decide) (by decide)

/-- Erase the carry-over buffer of a parser (for stating that two runs agree
up to buffered bytes). -/
def erase_buffer (p : MultipartParser) : MultipartParser := { p with buffer := [] }

/-- Apply a parser transformation inside a `_construct_part` result. -/
def cp_map (f : MultipartParser → MultipartParser) :
    Except (PyErr × MultipartParser) (MultipartParser × Part) →
    Except (PyErr × MultipartParser) (MultipartParser × Part)
  | .error (e, q) => .error (e, f q)
  | .ok (q, pt) => .ok (f q, pt)

/-- Apply a parser transformation inside a `_parse_part` result. -/
def pp_map (f : MultipartParser → MultipartParser) :
    Except (PyErr × MultipartParser) (MultipartParser × Option Part × List Line) →
    Except (PyErr × MultipartParser) (MultipartParser × Option Part × List Line)
  | .error (e, q) => .error (e, f q)
  | .ok (q, mp, r) => .ok (f q, mp, r)

/-- `_construct_part` never reads the carry-over buffer: running it with a
different buffer only changes the buffer of the resulting parser. -/
theorem construct_part_buffer (p : MultipartParser) (b : Bytes) (part : Part)
    (line nl : Bytes) :
    construct_part { p with buffer := b } part line nl =
      cp_map (fun q => { q with buffer := b }) (construct_part p part line nl) := by
  unfold construct_part
  by_cases h1 : nl = []
  · rw [if_pos h1, if_pos h1]
    exact rfl
  · rw [if_neg h1, if_neg h1]
    by_cases h2 : py_strip (decode_latin1 line) = ("")
    · rw [if_pos h2, if_pos h2]
      by_cases h3 : (headers_get part.headerlist ("Content-Disposition")).getD ("") = ("")
      · rw [if_pos h3, if_pos h3]
        exact rfl
      · rw [if_neg h3, if_neg h3]
        cases hcl : headers_get part.headerlist ("Content-Length") with
        | none =>
            simp only [hcl]
            exact rfl
        | some v =>
            cases hint : py_int v with
            | some n =>
                simp only [hcl, hint]
                exact rfl
            | none =>
                simp only [hcl, hint]
                exact rfl
    · rw [if_neg h2, if_neg h2]
      by_cases h4 : ¬ (s_contains (decode_latin1 line) ':' = true)
      · rw [if_pos h4, if_pos h4]
        exact rfl
      · rw [if_neg h4, if_neg h4]
        exact rfl

/-- The header loop of `_parse_part` gives the same outcome whatever the
carry-over buffer held at entry, up to the final buffer contents. -/
theorem part_loop_buffer (ls : List Line) :
    ∀ (p : MultipartParser) (b : Bytes) (part : Part),
      pp_map erase_buffer (part_loop { p with buffer := b } part ls) =
        pp_map erase_buffer (part_loop p part ls) := by
  induction ls with
  | nil => intro p b part; rfl
  | cons hd rest ih =>
      obtain ⟨line, nl⟩ := hd
      intro p b part
      simp only [part_loop]
      rw [construct_part_buffer]
      cases hc : construct_part p part line nl with
      | error ep =>
          obtain ⟨e', q'⟩ := ep
          simp only [cp_map]
          exact rfl
      | ok pq =>
          obtain ⟨p', part'⟩ := pq
          simp only [cp_map]
          by_cases hs1 : p'.state = States.BUILDING_HEADERS_NEED_DATA
          · rw [if_pos hs1, if_pos hs1]
            try exact rfl
          · rw [if_neg hs1, if_neg hs1]
            by_cases hs2 : p'.state = States.BUILDING_BODY
            · rw [if_pos hs2, if_pos hs2]
              try exact rfl
            · rw [if_neg hs2, if_neg hs2]
              exact ih p' b part'

/-- C10: a complete non-empty opening line that differs from the separator
but is strictly shorter is accepted without error: up to the bytes stashed in
the carry-over buffer, `_parse_part` behaves exactly as if the line were the
separator (the following lines are parsed as the part's headers), and the
boundary-mismatch error is never raised. -/
theorem c10_short_opening_line_accepted (p : MultipartParser) (l nl : Bytes)
    (rest : List Line) (hsep : p.separator ≠ []) (hl : l ≠ []) (hnl : nl ≠ [])
    (hne : l ≠ p.separator) (hlt : l.length < p.separator_len) :
    pp_map erase_buffer (parse_part p ((l, nl) :: rest)) =
      pp_map erase_buffer (parse_part p ((p.separator, nl) :: rest)) ∧
    (∀ e q, parse_part p ((l, nl) :: rest) = .error (e, q) →
        e ≠ .malformedData ("Part does not start with boundary")) := by
  have hskip1 : skip_empty ((l, nl) :: rest) = ((l, nl), rest) := by
    simp [skip_empty, hl]
  have hskip2 : skip_empty ((p.separator, nl) :: rest) = ((p.separator, nl), rest) := by
    simp [skip_empty, hsep]
  have hcond1 : ¬ (l ≠ p.separator ∧ l.length ≥ p.separator_len) :=
    fun hcon => absurd hcon.2 (not_le.mpr hlt)
  have hcond2 : ¬ (p.separator ≠ p.separator ∧ p.separator.length ≥ p.separator_len) :=
    fun hcon => hcon.1 rfl
  constructor
  · simp only [parse_part, hskip1, hskip2]
    rw [if_neg hnl, if_neg hnl, if_neg hcond1, if_neg hcond2]
    have h1 := part_loop_buffer rest
      { p with current_part := some (p.current_part.getD (new_part p.charset)) }
      (p.buffer ++ l ++ nl) (p.current_part.getD (new_part p.charset))
    have h2 := part_loop_buffer rest
      { p with current_part := some (p.current_part.getD (new_part p.charset)) }
      (p.buffer ++ p.separator ++ nl) (p.current_part.getD (new_part p.charset))
    exact h1.trans h2.symm
  · intro e q herr
    simp only [parse_part, hskip1] at herr
    rw [if_neg hnl, if_neg hcond1] at herr
    exact part_loop_error_not_boundary _ _ _ _ _ herr

/-- C10 witness: a 3-byte opening line `--A` against the 5-byte separator
`--XYZ`, followed by a complete header block. -/
theorem c10_short_opening_line_instance :
    pp_map erase_buffer (parse_part (mk_multipart (sb ("XYZ")))
        [((sb ("--A")), [13, 10]), ((sb ("Content-Disposition: x")), [13, 10]), ([], [13, 10])]) =
      pp_map erase_buffer (parse_part (mk_multipart (sb ("XYZ")))
        [(((mk_multipart (sb ("XYZ"))).separator), [13, 10]),
         ((sb ("Content-Disposition: x")), [13, 10]), ([], [13, 10])]) :=
  (c10_short_opening_line_accepted (mk_multipart (sb ("XYZ"))) (sb ("--A")) [13, 10]
    [((sb ("Content-Disposition: x")), [13, 10]), ([], [13, 10])]
    (by decide) (by decide) (by decide) (by decide) (by decide)).1

/-! ## Claim C2: document model and line-splitting lemmas -/

/-- A proper line ending: CRLF, LF or CR. -/
def nl_ok (nl : Bytes) : Bool :=
  nl = [13, 10] ∨ nl = [10] ∨ nl = [13]

/-- Payload bytes contain no CR and no LF. -/
def payload_ok (l : Bytes) : Bool :=
  l.all (fun b => b ≠ 13 ∧ b ≠ 10)

/-- Whether a byte string starts with LF (the only shape that can merge with
a preceding lone CR when lines are joined and re-split). -/
def head_is_lf : Bytes → Bool
  | [] => false
  | b :: _ => b = 10

/-- Unfolding of `separate_newlines` on a CRLF. -/
theorem separate_newlines_crlf (t : Bytes) :
    separate_newlines (13 :: 10 :: t) = ([], [13, 10]) :: separate_newlines t := rfl

/-- Unfolding of `separate_newlines` on a lone LF. -/
theorem separate_newlines_lf (t : Bytes) :
    separate_newlines (10 :: t) = ([], [10]) :: separate_newlines t := by
  cases t with
  | nil => rfl
  | cons b2 t2 => rfl

/-- Unfolding of `separate_newlines` on a CR not followed by LF. -/
theorem separate_newlines_cr (b2 : Byte) (t : Bytes) (h : ¬ b2 = 10) :
    separate_newlines (13 :: b2 :: t) = ([], [13]) :: separate_newlines (b2 :: t) := by
  have e : separate_newlines (13 :: b2 :: t) =
      if b2 = 10 then ([], [13, 10]) :: separate_newlines t
      else ([], [13]) :: separate_newlines (b2 :: t) := rfl
  rw [e, if_neg h]

/-- Unfolding of `separate_newlines` on a non-newline byte. -/
theorem separate_newlines_other (c : Byte) (rest : Bytes) (h13 : c ≠ 13) (h10 : c ≠ 10) :
    separate_newlines (c :: rest) = prepend_byte c (separate_newlines rest) := by
  cases rest with
  | nil =>
      have e : separate_newlines [c] =
          if c = 13 then [([], [13])]
          else if c = 10 then ([], [10]) :: separate_newlines []
          else prepend_byte c (separate_newlines []) := rfl
      rw [e, if_neg h13, if_neg h10]
  | cons b2 t =>
      have e : separate_newlines (c :: b2 :: t) =
          if c = 13 then
            (if b2 = 10 then ([], [13, 10]) :: separate_newlines t
             else ([], [13]) :: separate_newlines (b2 :: t))
          else if c = 10 then ([], [10]) :: separate_newlines (b2 :: t)
          else prepend_byte c (separate_newlines (b2 :: t)) := rfl
      rw [e, if_neg h13, if_neg h10]

/-- No lone-CR line ending directly followed by an LF-only empty line:
exactly the condition under which `join_lines` and `separate_newlines` are
mutually inverse. -/
def no_merge : List Line → Bool
  | [] => true
  | [_] => true
  | (_, nl1) :: (l2, nl2) :: rest =>
      (¬ (nl1 = [13] ∧ l2 = [] ∧ nl2 = [10])) ∧ no_merge ((l2, nl2) :: rest)

theorem no_merge_cons {ln : Line} {rest : List Line}
    (h : no_merge (ln :: rest) = true) : no_merge rest = true := by
  cases rest with
  | nil => rfl
  | cons ln2 r2 =>
      obtain ⟨l1, nl1⟩ := ln
      obtain ⟨l2, nl2⟩ := ln2
      simp only [no_merge, Bool.and_eq_true, decide_eq_true_eq] at h
      exact h.2

theorem no_merge_append_right {a b : List Line}
    (h : no_merge (a ++ b) = true) : no_merge b = true := by
  induction a with
  | nil => exact h
  | cons ln r ih => exact ih (no_merge_cons h)

theorem join_lines_append (a b : List Line) :
    join_lines (a ++ b) = join_lines a ++ join_lines b := by
  induction a with
  | nil => rfl
  | cons ln r ih =>
      obtain ⟨l, nl⟩ := ln
      simp [join_lines, ih]

/-- Splitting one well-formed line off the front of a byte string. -/
theorem separate_newlines_line (l nl tail : Bytes)
    (hl : payload_ok l = true) (hnl : nl_ok nl = true)
    (hcr : nl = [13] → head_is_lf tail = false) :
    separate_newlines (l ++ nl ++ tail) = (l, nl) :: separate_newlines tail := by
  induction l with
  | nil =>
      simp only [List.nil_append]
      simp only [nl_ok, Bool.or_eq_true, decide_eq_true_eq] at hnl
      rcases hnl with h | h | h
      · subst h
        exact separate_newlines_crlf tail
      · subst h
        exact separate_newlines_lf tail
      · subst h
        cases tail with
        | nil => rfl
        | cons b2 t2 =>
            have hb2 : ¬ b2 = 10 := by
              intro hb
              subst hb
              exact absurd (hcr rfl) (by simp [head_is_lf])
            exact separate_newlines_cr b2 t2 hb2
  | cons c l' ih =>
      simp only [payload_ok, List.all_cons, Bool.and_eq_true, decide_eq_true_eq] at hl
      obtain ⟨⟨hc13, hc10⟩, hl'⟩ := hl
      have ihr := ih (by simpa [payload_ok] using hl')
      rw [List.append_assoc, List.cons_append, separate_newlines_other c _ hc13 hc10,
        ← List.append_assoc, ihr]
      rfl

/-- Well-formed line lists survive a join/re-split round trip (the carry-over
buffer of the parser is re-split on the next iteration). -/
theorem separate_newlines_join (ls : List Line)
    (hwf : ∀ ln ∈ ls, payload_ok ln.1 = true ∧ nl_ok ln.2 = true)
    (hnm : no_merge ls = true) :
    separate_newlines (join_lines ls) = ls := by
  induction ls with
  | nil => rfl
  | cons ln rest ih =>
      obtain ⟨l, nl⟩ := ln
      have hln := hwf (l, nl) (List.mem_cons_self _ _)
      have hcr : nl = [13] → head_is_lf (join_lines rest) = false := by
        intro hnl13
        cases rest with
        | nil => rfl
        | cons ln2 r2 =>
            obtain ⟨l2, nl2⟩ := ln2
            have hln2 := hwf (l2, nl2) (by simp)
            simp only [no_merge, Bool.and_eq_true, decide_eq_true_eq] at hnm
            have hne : ¬ (l2 = [] ∧ nl2 = [10]) := by
              intro hcon
              exact hnm.1 ⟨hnl13, hcon.1, hcon.2⟩
            cases hl2 : l2 with
            | nil =>
                subst hl2
                have hnl2 : nl2 ≠ [10] := fun hx => hne ⟨rfl, hx⟩
                have := hln2.2
                simp only [nl_ok, Bool.or_eq_true, decide_eq_true_eq] at this
                rcases this with h | h | h
                · subst h
                  rfl
                · exact absurd h hnl2
                · subst h
                  rfl
            | cons c t =>
                subst hl2
                have := hln2.1
                simp only [payload_ok, List.all_cons, Bool.and_eq_true,
                  decide_eq_true_eq] at this
                have hc10 : c ≠ 10 := this.1.2
                show decide (c = 10) = false
                exact decide_eq_false hc10
      have hstep := separate_newlines_line l nl (join_lines rest) hln.1 hln.2 hcr
      have hjoin : join_lines ((l, nl) :: rest) = l ++ nl ++ join_lines rest := rfl
      rw [hjoin, hstep,
        ih (fun x hx => hwf x (List.mem_cons_of_mem _ hx)) (no_merge_cons hnm)]

/-! ## Claim C2: the document model -/

/-- One part of an abstract multipart document: line ending of its separator
line, header lines, ending of the blank line closing the headers, and the
body as `(payload, line_ending)` pairs — the last ending being the newline
that precedes the next boundary line (and so, per RFC and spec, belongs to
the boundary, not to the body). -/
structure DocPart where
  sep_end : Bytes
  header_lines : List Line
  blank_end : Bytes
  body : List Line
deriving DecidableEq

/-- An abstract multipart document. -/
structure Doc where
  boundary : Bytes
  parts : List DocPart
  term_end : Bytes
deriving DecidableEq

/-- The lines of one rendered part. -/
def part_lines (sep : Bytes) (dp : DocPart) : List Line :=
  (sep, dp.sep_end) :: (dp.header_lines ++ ([], dp.blank_end) :: dp.body)

/-- All lines of a rendered document. -/
def doc_lines (d : Doc) : List Line :=
  (d.parts.flatMap (part_lines ([45, 45] ++ d.boundary))) ++
    [([45, 45] ++ d.boundary ++ [45, 45], d.term_end)]

/-- The rendered byte string of a document. -/
def render (d : Doc) : Bytes := join_lines (doc_lines d)

/-- The `(name, value)` pair that `_construct_part` derives from one header
line. -/
def header_pair (l : Bytes) : String × String :=
  (py_strip (s_split_once (decode_latin1 l) ':').1,
   py_strip (s_split_once (decode_latin1 l) ':').2)

/-- The `(name, value)` pairs that the parser's header loop derives from the
header lines. -/
def header_pairs (hls : List Line) : List (String × String) :=
  hls.map (fun ln => header_pair ln.1)

/-- The `Part` object the parser builds for a document part. -/
def doc_part_obj (dp : DocPart) : Part :=
  close_part { new_part ("latin1") with headerlist := header_pairs dp.header_lines }

/-- The body of a part as bytes: payloads joined by their line endings, the
final line ending excluded (it belongs to the following boundary line). -/
def glue_body (prev : Bytes) : List Line → Bytes
  | [] => []
  | (l, nl) :: rest => prev ++ l ++ glue_body nl rest

/-- Spec-side body bytes of a part. -/
def body_bytes (ls : List Line) : Bytes := glue_body [] ls

/-- Sum of the payload lengths of the body lines (what the Content-Length
policing counts). -/
def payload_sum : List Line → Nat
  | [] => 0
  | (l, _) :: rest => l.length + payload_sum rest

/-- The update of `expected_part_size` performed when the header block
closes. -/
def cl_expected (hl : List (String × String)) (old : Option Int) : Option Int :=
  match headers_get hl ("Content-Length") with
  | some v => match py_int v with
      | some n => some n
      | none => old
  | none => old

/-- The events a valid document produces: one `Part` per part, one
`PartData` per part with a non-empty body. -/
def parts_events : List DocPart → List Event
  | [] => []
  | dp :: rest =>
      .part (doc_part_obj dp) ::
        ((if body_bytes dp.body = [] then [] else
           [.partData { raw := body_bytes dp.body, size := (body_bytes dp.body).length }]) ++
         parts_events rest)

/-- The full expected event sequence of a valid document. -/
def doc_events (d : Doc) : List Event := parts_events d.parts ++ [.FINISHED]

/-- Validity of one header line: CR/LF-free payload, a proper ending, not
blank after decoding and stripping, and containing a colon. -/
def header_line_ok (ln : Line) : Prop :=
  payload_ok ln.1 = true ∧ nl_ok ln.2 = true ∧
  py_strip (decode_latin1 ln.1) ≠ ("") ∧ s_contains (decode_latin1 ln.1) ':' = true

/-- Validity of one body line: CR/LF-free payload, a proper ending, and not
colliding with the separator or terminator line. -/
def body_line_ok (sep term : Bytes) (ln : Line) : Prop :=
  payload_ok ln.1 = true ∧ nl_ok ln.2 = true ∧ ln.1 ≠ sep ∧ ln.1 ≠ term

/-- Validity of one document part against the separator and terminator. -/
def part_ok (sep term : Bytes) (dp : DocPart) : Prop :=
  nl_ok dp.sep_end = true ∧ nl_ok dp.blank_end = true ∧
  (∀ ln ∈ dp.header_lines, header_line_ok ln) ∧
  (∀ ln ∈ dp.body, body_line_ok sep term ln) ∧
  (headers_get (header_pairs dp.header_lines) ("Content-Disposition")).getD ("") ≠ ("") ∧
  (∀ v, headers_get (header_pairs dp.header_lines) ("Content-Length") = some v →
      ∃ n, py_int v = some n ∧ (payload_sum dp.body : Int) ≤ n)

/-- Validity of a whole document: at least one part, CR/LF-free boundary, a
proper terminator line ending, valid parts, and no CR/LF line merge anywhere
in the rendering. -/
def valid_doc (d : Doc) : Prop :=
  d.parts ≠ [] ∧ payload_ok d.boundary = true ∧ nl_ok d.term_end = true ∧
  (∀ dp ∈ d.parts, part_ok ([45, 45] ++ d.boundary) ([45, 45] ++ d.boundary ++ [45, 45]) dp) ∧
  no_merge (doc_lines d) = true

/-! ## Claim C2: the header phase -/

/-- `_construct_part` on a complete, non-blank header line with a colon:
append the stripped name/value pair. -/
theorem construct_part_header_line (p : MultipartParser) (part : Part) (l nl : Bytes)
    (hnl : nl ≠ []) (hstrip : py_strip (decode_latin1 l) ≠ (""))
    (hcolon : s_contains (decode_latin1 l) ':' = true) :
    construct_part p part l nl =
      .ok ({ p with current_part := some { part with headerlist := part.headerlist ++ [header_pair l] } },
           { part with headerlist := part.headerlist ++ [header_pair l] }) := by
  unfold construct_part
  rw [if_neg hnl, if_neg hstrip, if_neg (fun h => h hcolon)]
  exact rfl

/-- `_construct_part` on a blank line closing a header block that carries a
`Content-Disposition` and whose `Content-Length`, if any, parses. -/
theorem construct_part_blank (p : MultipartParser) (part : Part) (nl : Bytes)
    (hnl : nl ≠ [])
    (hcd : (headers_get part.headerlist ("Content-Disposition")).getD ("") ≠ (""))
    (hcl : ∀ v, headers_get part.headerlist ("Content-Length") = some v →
        ∃ n, py_int v = some n) :
    construct_part p part [] nl =
      .ok ({ p with expected_part_size := cl_expected part.headerlist p.expected_part_size,
                    current_part := none, state := .BUILDING_BODY },
           close_part part) := by
  unfold construct_part
  rw [if_neg hnl, if_pos (show py_strip (decode_latin1 []) = ("") from rfl), if_neg hcd]
  cases hclv : headers_get part.headerlist ("Content-Length") with
  | none =>
      simp only [cl_expected, hclv]
  | some v =>
      obtain ⟨n, hn⟩ := hcl v hclv
      simp only [cl_expected, hclv, hn]

/-- The header loop of `_parse_part` over a block of valid header lines, a
blank line and trailing lines: every pair is collected, the part is closed,
the trailing lines are buffered, and the parser moves to `BUILDING_BODY`. -/
theorem part_loop_headers (hls : List Line) :
    ∀ (p : MultipartParser) (part : Part) (blank_end : Bytes) (rest : List Line),
      p.state = .BUILDING_HEADERS →
      blank_end ≠ [] →
      (∀ ln ∈ hls, header_line_ok ln) →
      (headers_get (part.headerlist ++ header_pairs hls) ("Content-Disposition")).getD ("") ≠ ("") →
      (∀ v, headers_get (part.headerlist ++ header_pairs hls) ("Content-Length") = some v →
          ∃ n, py_int v = some n) →
      part_loop p part (hls ++ ([], blank_end) :: rest) =
        .ok ({ p with buffer := join_lines rest, current_part := none,
                      state := .BUILDING_BODY,
                      expected_part_size :=
                        cl_expected (part.headerlist ++ header_pairs hls) p.expected_part_size },
             some (close_part { part with headerlist := part.headerlist ++ header_pairs hls }),
             []) := by
  induction hls with
  | nil =>
      intro p part blank_end rest hst hblank hhl hcd hcl
      simp only [header_pairs, List.map_nil, List.append_nil] at hcd hcl ⊢
      simp only [List.nil_append, part_loop]
      rw [construct_part_blank p part blank_end hblank hcd hcl]
      exact rfl
  | cons ln hls' ih =>
      obtain ⟨l, nl⟩ := ln
      intro p part blank_end rest hst hblank hhl hcd hcl
      obtain ⟨hpl, hnlok, hstrip, hcolon⟩ := hhl (l, nl) (List.mem_cons_self _ _)
      have hnl : nl ≠ [] := by
        intro h
        subst h
        simp [nl_ok] at hnlok
      simp only [List.cons_append, part_loop,
        construct_part_header_line p part l nl hnl hstrip hcolon, hst]
      rw [if_neg (by decide : ¬ (States.BUILDING_HEADERS = States.BUILDING_HEADERS_NEED_DATA)),
          if_neg (by decide : ¬ (States.BUILDING_HEADERS = States.BUILDING_BODY))]
      have hassoc : part.headerlist ++ header_pairs ((l, nl) :: hls') =
          (part.headerlist ++ [header_pair l]) ++ header_pairs hls' := by
        simp [header_pairs, List.append_assoc]
      rw [hassoc]
      exact ih _ _ blank_end rest rfl hblank
        (fun x hx => hhl x (List.mem_cons_of_mem _ hx))
        (hassoc ▸ hcd) (hassoc ▸ hcl)

/-! ## Claim C2: the body phase -/

/-- The line ending carried in `previous_newline` after the body lines have
been consumed. -/
def last_nl (prev : Bytes) : List Line → Bytes
  | [] => prev
  | (_, nl) :: rest => last_nl nl rest

/-- The body loop of `_build_part_data` over well-formed body lines with no
`Content-Length` policing active: the payloads accumulate into the part data
buffer, interleaved with the line endings. -/
theorem bpd_loop_body_nocl (body : List Line) :
    ∀ (p : MultipartParser) (buf prev : Bytes) (tail : List Line),
      p.last_held_line = none →
      p.expected_part_size = none →
      (∀ ln ∈ body, body_line_ok p.separator p.terminator ln) →
      bpd_loop p buf prev (body ++ tail) =
        bpd_loop p (buf ++ glue_body prev body) (last_nl prev body) tail := by
  induction body with
  | nil =>
      intro p buf prev tail hheld hexp hbl
      simp only [List.nil_append, glue_body, List.append_nil, last_nl]
  | cons ln body' ih =>
      obtain ⟨l, nl⟩ := ln
      intro p buf prev tail hheld hexp hbl
      obtain ⟨hpl, hnlok, hlsep, hlterm⟩ := hbl (l, nl) (List.mem_cons_self _ _)
      have hnl : ¬ (nl = []) := by
        intro h
        subst h
        simp [nl_ok] at hnlok
      simp only [List.cons_append, bpd_loop, hheld]
      rw [if_neg hlterm, if_neg hlsep, if_neg hnl]
      simp only [regulate_content_length, hexp]
      refine (ih p (buf ++ prev ++ l) nl tail hheld hexp
        (fun x hx => hbl x (List.mem_cons_of_mem _ hx))).trans ?_
      simp [glue_body, last_nl, List.append_assoc, hheld]

/-- The body loop of `_build_part_data` over well-formed body lines whose
total payload stays within the declared `Content-Length`: the payloads
accumulate and `current_part_size` grows by their total length. -/
theorem bpd_loop_body_cl (body : List Line) :
    ∀ (p : MultipartParser) (buf prev : Bytes) (tail : List Line) (n : Int),
      p.last_held_line = none →
      p.expected_part_size = some n →
      (∀ ln ∈ body, body_line_ok p.separator p.terminator ln) →
      ((p.current_part_size + payload_sum body : Nat) : Int) ≤ n →
      bpd_loop p buf prev (body ++ tail) =
        bpd_loop { p with current_part_size := p.current_part_size + payload_sum body }
          (buf ++ glue_body prev body) (last_nl prev body) tail := by
  induction body with
  | nil =>
      intro p buf prev tail n hheld hexp hbl hbound
      simp only [List.nil_append, glue_body, List.append_nil, last_nl, payload_sum,
        Nat.add_zero]
  | cons ln body' ih =>
      obtain ⟨l, nl⟩ := ln
      intro p buf prev tail n hheld hexp hbl hbound
      obtain ⟨hpl, hnlok, hlsep, hlterm⟩ := hbl (l, nl) (List.mem_cons_self _ _)
      have hnl : ¬ (nl = []) := by
        intro h
        subst h
        simp [nl_ok] at hnlok
      simp only [List.cons_append, bpd_loop, hheld]
      rw [if_neg hlterm, if_neg hlsep, if_neg hnl]
      have hreg : regulate_content_length p l.length =
          .ok { p with current_part_size := p.current_part_size + l.length } := by
        simp only [regulate_content_length, hexp]
        rw [if_neg (show ¬ (((p.current_part_size + l.length : Nat) : Int) > n) from by
          simp only [payload_sum] at hbound
          push_cast at hbound ⊢
          omega)]
      simp only [hreg]
      have hbound' : (((p.current_part_size + l.length) + payload_sum body' : Nat) : Int) ≤ n := by
        simp only [payload_sum] at hbound
        push_cast at hbound ⊢
        omega
      refine (ih { p with current_part_size := p.current_part_size + l.length }
        (buf ++ prev ++ l) nl tail n hheld hexp
        (fun x hx => hbl x (List.mem_cons_of_mem _ hx)) hbound').trans ?_
      simp [glue_body, last_nl, payload_sum, List.append_assoc, Nat.add_assoc, hheld]

/-- The headers iteration of the `_queue_events` loop: in `BUILDING_HEADERS`
state with no part under construction, fed the rendered lines of one valid
document part followed by anything, `_parse_part` consumes the separator
line and the header block, queues the `Part`, buffers the remaining lines
and moves to `BUILDING_BODY`. -/
theorem feed_dispatch_headers (p : MultipartParser) (dp : DocPart) (tail : List Line)
    (hst : p.state = .BUILDING_HEADERS) (hcp : p.current_part = none)
    (hch : p.charset = ("latin1"))
    (hsep2 : 2 ≤ p.separator.length)
    (hse : dp.sep_end ≠ []) (hbe : dp.blank_end ≠ [])
    (hhl : ∀ ln ∈ dp.header_lines, header_line_ok ln)
    (hcd : (headers_get (header_pairs dp.header_lines) ("Content-Disposition")).getD ("") ≠ (""))
    (hcl : ∀ v, headers_get (header_pairs dp.header_lines) ("Content-Length") = some v →
        ∃ n, py_int v = some n) :
    feed_dispatch p (part_lines p.separator dp ++ tail) =
      .ok ({ p with buffer := join_lines (dp.body ++ tail),
                    state := .BUILDING_BODY,
                    current_part := none,
                    expected_part_size :=
                      cl_expected (header_pairs dp.header_lines) p.expected_part_size,
                    events_queue := p.events_queue ++ [.part (doc_part_obj dp)] }, []) := by
  have hsepne : p.separator ≠ [] := by
    intro h
    rw [h] at hsep2
    simp at hsep2
  have hskip : skip_empty ((p.separator, dp.sep_end) ::
      ((dp.header_lines ++ ([], dp.blank_end) :: dp.body) ++ tail)) =
      ((p.separator, dp.sep_end), (dp.header_lines ++ ([], dp.blank_end) :: dp.body) ++ tail) := by
    simp only [skip_empty]
    rw [if_neg hsepne]
  have hassoc : (dp.header_lines ++ ([], dp.blank_end) :: dp.body) ++ tail =
      dp.header_lines ++ ([], dp.blank_end) :: (dp.body ++ tail) := by
    simp [List.append_assoc]
  simp only [feed_dispatch]
  rw [if_pos hst]
  simp only [part_lines, List.cons_append, parse_part, hskip]
  rw [if_neg hse,
    if_neg (show ¬ (p.separator ≠ p.separator ∧ p.separator.length ≥ p.separator_len) from
      fun h => h.1 rfl)]
  simp only [hcp, hch, Option.getD_none, hassoc]
  simp only [part_loop_headers dp.header_lines
    { p with charset := ("latin1"), buffer := p.buffer ++ p.separator ++ dp.sep_end, current_part := some (new_part ("latin1")) }
    (new_part ("latin1")) dp.blank_end (dp.body ++ tail) hst hbe hhl hcd hcl]
  simp only [new_part, doc_part_obj, List.nil_append]
  try exact rfl

/-- The final body iteration of the `_queue_events` loop: in `BUILDING_BODY`
state, fed valid body lines followed by the terminator line, the parser
queues the accumulated `PartData` (if non-empty) and reaches `FINISHED`. -/
theorem feed_dispatch_body_term (p : MultipartParser) (body tail2 : List Line) (te : Bytes)
    (hst : p.state = .BUILDING_BODY) (hheld : p.last_held_line = none)
    (hbl : ∀ ln ∈ body, body_line_ok p.separator p.terminator ln)
    (hexp : p.expected_part_size = none ∨
      ∃ n, p.expected_part_size = some n ∧
        ((p.current_part_size + payload_sum body : Nat) : Int) ≤ n) :
    feed_dispatch p (body ++ (p.terminator, te) :: tail2) =
      .ok ({ p with state := .FINISHED, current_part_size := 0, expected_part_size := none,
                    events_queue := p.events_queue ++
                      (if body_bytes body = [] then [] else
                        [.partData { raw := body_bytes body, size := (body_bytes body).length }]) },
           tail2) := by
  have hnotH : ¬ (p.state = States.BUILDING_HEADERS) := by
    rw [hst]
    decide
  have hstep : bpd_loop p [] [] (body ++ (p.terminator, te) :: tail2) =
      .ok ({ p with state := .FINISHED, current_part_size := 0, expected_part_size := none },
        body_bytes body, tail2) := by
    rcases hexp with hnone | ⟨n, hsome, hbound⟩
    · rw [bpd_loop_body_nocl body p [] [] _ hheld hnone hbl]
      simp only [List.nil_append, bpd_loop, hheld]
      rw [if_pos trivial]
      exact rfl
    · rw [bpd_loop_body_cl body p [] [] _ n hheld hsome hbl (by simpa using hbound)]
      simp only [List.nil_append, bpd_loop, hheld]
      rw [if_pos trivial]
      exact rfl
  have hbuild : build_part_data p (body ++ (p.terminator, te) :: tail2) =
      .ok ({ p with state := .FINISHED, current_part_size := 0, expected_part_size := none },
        (if body_bytes body = [] then none else
          some { raw := body_bytes body, size := (body_bytes body).length }), tail2) := by
    simp only [build_part_data, hstep]
    by_cases hb : body_bytes body = []
    · rw [if_neg (not_not_intro hb), if_pos hb]
    · rw [if_pos hb, if_neg hb]
      simp
  simp only [feed_dispatch]
  rw [if_neg hnotH, if_pos hst]
  simp only [hbuild]
  by_cases hb : body_bytes body = []
  · simp [hb]
  · simp [hb]

/-- A non-final body iteration of the `_queue_events` loop: in
`BUILDING_BODY` state, fed valid body lines followed by the separator line
of the next part and further lines, the parser queues the accumulated
`PartData` (if non-empty), buffers the separator line together with
everything after it, and moves back to `BUILDING_HEADERS`. -/
theorem feed_dispatch_body_sep (p : MultipartParser) (body tail2 : List Line) (snl : Bytes)
    (hst : p.state = .BUILDING_BODY) (hheld : p.last_held_line = none)
    (hterm : p.terminator = p.separator ++ [45, 45])
    (hbl : ∀ ln ∈ body, body_line_ok p.separator p.terminator ln)
    (hexp : p.expected_part_size = none ∨
      ∃ n, p.expected_part_size = some n ∧
        ((p.current_part_size + payload_sum body : Nat) : Int) ≤ n) :
    feed_dispatch p (body ++ (p.separator, snl) :: tail2) =
      .ok ({ p with buffer := p.buffer ++ p.separator ++ snl ++ join_lines tail2,
                    state := .BUILDING_HEADERS, current_part_size := 0,
                    expected_part_size := none,
                    events_queue := p.events_queue ++
                      (if body_bytes body = [] then [] else
                        [.partData { raw := body_bytes body, size := (body_bytes body).length }]) },
           []) := by
  have hnotH : ¬ (p.state = States.BUILDING_HEADERS) := by
    rw [hst]
    decide
  have hsep_ne : ¬ (p.separator = p.terminator) := by
    rw [hterm]
    intro h
    have := congrArg List.length h
    simp at this
  have hstep : bpd_loop p [] [] (body ++ (p.separator, snl) :: tail2) =
      .ok ({ p with buffer := p.buffer ++ p.separator ++ snl ++ join_lines tail2,
                    state := .BUILDING_HEADERS, current_part_size := 0,
                    expected_part_size := none },
        body_bytes body, []) := by
    rcases hexp with hnone | ⟨n, hsome, hbound⟩
    · rw [bpd_loop_body_nocl body p [] [] _ hheld hnone hbl]
      simp only [List.nil_append, bpd_loop, hheld]
      rw [if_neg hsep_ne, if_pos trivial]
      exact rfl
    · rw [bpd_loop_body_cl body p [] [] _ n hheld hsome hbl (by simpa using hbound)]
      simp only [List.nil_append, bpd_loop, hheld]
      rw [if_neg hsep_ne, if_pos trivial]
      exact rfl
  have hbuild : build_part_data p (body ++ (p.separator, snl) :: tail2) =
      .ok ({ p with buffer := p.buffer ++ p.separator ++ snl ++ join_lines tail2,
                    state := .BUILDING_HEADERS, current_part_size := 0,
                    expected_part_size := none },
        (if body_bytes body = [] then none else
          some { raw := body_bytes body, size := (body_bytes body).length }), []) := by
    simp only [build_part_data, hstep]
    by_cases hb : body_bytes body = []
    · rw [if_neg (not_not_intro hb), if_pos hb]
    · rw [if_pos hb, if_neg hb]
      simp
  simp only [feed_dispatch]
  rw [if_neg hnotH, if_pos hst]
  simp only [hbuild]
  by_cases hb : body_bytes body = []
  · simp [hb]
  · simp [hb]

/-- `cl_expected` on a part that satisfies `part_ok`, starting from no
declared size: either no `Content-Length` is recorded, or the recorded value
bounds the body's payload. -/
theorem cl_expected_cases (dp : DocPart) (sep term : Bytes) (hpo : part_ok sep term dp) :
    cl_expected (header_pairs dp.header_lines) none = none ∨
    ∃ n, cl_expected (header_pairs dp.header_lines) none = some n ∧
      (payload_sum dp.body : Int) ≤ n := by
  obtain ⟨h1, h2, h3, h4, h5, hcl⟩ := hpo
  cases hv : headers_get (header_pairs dp.header_lines) ("Content-Length") with
  | none =>
      left
      simp [cl_expected, hv]
  | some v =>
      obtain ⟨n, hn, hb⟩ := hcl v hv
      right
      exact ⟨n, by simp [cl_expected, hv, hn], hb⟩

/-- The buffer-prepend step at the top of a `_queue_events` loop iteration,
written uniformly. -/
theorem prepend_buffer_eq (p : MultipartParser) (lines : List Line) :
    prepend_buffer p lines = ({ p with buffer := [] }, separate_newlines p.buffer ++ lines) := by
  unfold prepend_buffer
  by_cases h : p.buffer = []
  · rw [if_neg (not_not_intro h)]
    have he : { p with buffer := ([] : Bytes) } = p := by rw [← h]
    rw [he, h]
    exact rfl
  · rw [if_pos h]

/-- One `_queue_events` loop iteration whose dispatch leaves the parser in a
state that continues the loop. -/
theorem queue_events_loop_step_cont (fuel : Nat) (p : MultipartParser) (lines : List Line)
    (p' : MultipartParser) (rest : List Line)
    (hfd : feed_dispatch { p with buffer := [] } (separate_newlines p.buffer ++ lines) =
      .ok (p', rest))
    (h1 : p'.state ≠ .BUILDING_HEADERS_NEED_DATA)
    (h2 : p'.state ≠ .BUILDING_BODY_NEED_DATA)
    (h3 : p'.state ≠ .FINISHED) :
    queue_events_loop (fuel + 1) p lines = queue_events_loop fuel p' rest := by
  simp only [queue_events_loop, prepend_buffer_eq, hfd]
  rw [if_neg h1, if_neg h2, if_neg h3]

/-- One `_queue_events` loop iteration whose dispatch reaches `FINISHED`: the
loop appends the `FINISHED` event and stops. -/
theorem queue_events_loop_step_fin (fuel : Nat) (p : MultipartParser) (lines : List Line)
    (p' : MultipartParser) (rest : List Line)
    (hfd : feed_dispatch { p with buffer := [] } (separate_newlines p.buffer ++ lines) =
      .ok (p', rest))
    (h3 : p'.state = .FINISHED) :
    queue_events_loop (fuel + 1) p lines =
      .ok { p' with events_queue := p'.events_queue ++ [.FINISHED] } := by
  simp only [queue_events_loop, prepend_buffer_eq, hfd]
  rw [if_neg (by rw [h3]; decide), if_neg (by rw [h3]; decide), if_pos h3]

/-- The `while True:` loop of `_queue_events` on the rendered lines of a
valid document: every part is consumed by one headers iteration and one body
iteration, producing exactly the document's events, and the run ends in
`FINISHED` with all carry-over state cleared. -/
theorem loop_run (parts : List DocPart) :
    ∀ (p : MultipartParser) (lines : List Line) (te : Bytes) (fuel : Nat),
      parts ≠ [] →
      p.state = .BUILDING_HEADERS →
      p.current_part = none →
      p.last_held_line = none →
      p.expected_part_size = none →
      p.current_part_size = 0 →
      p.charset = ("latin1") →
      p.terminator = p.separator ++ [45, 45] →
      2 ≤ p.separator.length →
      te ≠ [] →
      (∀ dp ∈ parts, part_ok p.separator p.terminator dp) →
      (∀ ln ∈ parts.flatMap (part_lines p.separator) ++ [(p.terminator, te)],
          payload_ok ln.1 = true ∧ nl_ok ln.2 = true) →
      no_merge (parts.flatMap (part_lines p.separator) ++ [(p.terminator, te)]) = true →
      separate_newlines p.buffer ++ lines =
        parts.flatMap (part_lines p.separator) ++ [(p.terminator, te)] →
      2 * parts.length ≤ fuel →
      queue_events_loop fuel p lines =
        .ok { p with state := .FINISHED,
                     events_queue := p.events_queue ++ parts_events parts ++ [.FINISHED],
                     buffer := [], current_part := none,
                     expected_part_size := none, current_part_size := 0 } := by
  induction parts with
  | nil =>
      intro p lines te fuel hne
      exact absurd rfl hne
  | cons dp rest ih =>
      intro p lines te fuel hne hst hcp hheld hexp hcps hch hterm hsep2 hte hpo hwf hnm heff hfuel
      obtain ⟨hse_ok, hbe_ok, hhl3, hbl3, hcd3, hcl3⟩ := hpo dp (List.mem_cons_self _ _)
      have hse : dp.sep_end ≠ [] := fun h => by rw [h] at hse_ok; simp [nl_ok] at hse_ok
      have hbe : dp.blank_end ≠ [] := fun h => by rw [h] at hbe_ok; simp [nl_ok] at hbe_ok
      have hcl' : ∀ v, headers_get (header_pairs dp.header_lines) ("Content-Length") = some v →
          ∃ n, py_int v = some n := fun v hv => (hcl3 v hv).elim (fun n hn => ⟨n, hn.1⟩)
      have hexpd : cl_expected (header_pairs dp.header_lines) p.expected_part_size = none ∨
          ∃ n, cl_expected (header_pairs dp.header_lines) p.expected_part_size = some n ∧
            ((p.current_part_size + payload_sum dp.body : Nat) : Int) ≤ n := by
        rw [hexp, hcps]
        rcases cl_expected_cases dp p.separator p.terminator (hpo dp (List.mem_cons_self _ _))
          with h | ⟨n, hn, hb⟩
        · exact Or.inl h
        · refine Or.inr ⟨n, hn, ?_⟩
          push_cast
          omega
      obtain ⟨f, rfl⟩ : ∃ f, fuel = f + 2 := by
        refine ⟨fuel - 2, ?_⟩
        simp only [List.length_cons] at hfuel
        omega
      have heff' : separate_newlines p.buffer ++ lines =
          part_lines p.separator dp ++
            (rest.flatMap (part_lines p.separator) ++ [(p.terminator, te)]) := by
        rw [heff]
        simp [List.flatMap_cons, List.append_assoc]
      have hwf2 : ∀ ln ∈ part_lines p.separator dp ++
          (rest.flatMap (part_lines p.separator) ++ [(p.terminator, te)]),
          payload_ok ln.1 = true ∧ nl_ok ln.2 = true := by
        intro ln h
        apply hwf
        simp only [List.flatMap_cons, List.append_assoc]
        exact h
      have hnm2 : no_merge (part_lines p.separator dp ++
          (rest.flatMap (part_lines p.separator) ++ [(p.terminator, te)])) = true := by
        have := hnm
        simp only [List.flatMap_cons, List.append_assoc] at this
        exact this
      have hshape : part_lines p.separator dp ++
          (rest.flatMap (part_lines p.separator) ++ [(p.terminator, te)]) =
          (((p.separator, dp.sep_end) :: dp.header_lines) ++ [([], dp.blank_end)]) ++
            (dp.body ++ (rest.flatMap (part_lines p.separator) ++ [(p.terminator, te)])) := by
        simp [part_lines, List.append_assoc]
      have hwfT : ∀ ln ∈ dp.body ++ (rest.flatMap (part_lines p.separator) ++
          [(p.terminator, te)]), payload_ok ln.1 = true ∧ nl_ok ln.2 = true :=
        fun ln h => hwf2 ln (by rw [hshape]; exact List.mem_append_right _ h)
      have hnmT : no_merge (dp.body ++ (rest.flatMap (part_lines p.separator) ++
          [(p.terminator, te)])) = true := by
        rw [hshape] at hnm2
        exact no_merge_append_right hnm2
      have hsplitT : separate_newlines (join_lines (dp.body ++
          (rest.flatMap (part_lines p.separator) ++ [(p.terminator, te)]))) =
          dp.body ++ (rest.flatMap (part_lines p.separator) ++ [(p.terminator, te)]) :=
        separate_newlines_join _ hwfT hnmT
      have hfd1 : feed_dispatch { p with buffer := [] } (separate_newlines p.buffer ++ lines) =
          .ok ({ p with buffer := join_lines (dp.body ++ (rest.flatMap (part_lines p.separator) ++ [(p.terminator, te)])), state := States.BUILDING_BODY, current_part := none, expected_part_size := cl_expected (header_pairs dp.header_lines) p.expected_part_size, events_queue := p.events_queue ++ [Event.part (doc_part_obj dp)] }, []) := by
        rw [heff']
        exact feed_dispatch_headers { p with buffer := [] } dp
          (rest.flatMap (part_lines p.separator) ++ [(p.terminator, te)])
          hst hcp hch hsep2 hse hbe hhl3 hcd3 hcl'
      refine (queue_events_loop_step_cont (f + 1) p lines _ [] hfd1
        (fun h => States.noConfusion h) (fun h => States.noConfusion h)
        (fun h => States.noConfusion h)).trans ?_
      cases rest with
      | nil =>
          have hfd2 : feed_dispatch { p with buffer := [], state := States.BUILDING_BODY, current_part := none, expected_part_size := cl_expected (header_pairs dp.header_lines) p.expected_part_size, events_queue := p.events_queue ++ [Event.part (doc_part_obj dp)] } (separate_newlines (join_lines (dp.body ++ (List.flatMap ([] : List DocPart) (part_lines p.separator) ++ [(p.terminator, te)]))) ++ []) = .ok ({ p with buffer := [], state := States.FINISHED, current_part := none, expected_part_size := none, current_part_size := 0, events_queue := (p.events_queue ++ [Event.part (doc_part_obj dp)]) ++ (if body_bytes dp.body = [] then [] else [Event.partData { raw := body_bytes dp.body, size := (body_bytes dp.body).length }]) }, []) := by
            rw [List.append_nil, hsplitT]
            exact feed_dispatch_body_term
              { p with buffer := [], state := States.BUILDING_BODY, current_part := none, expected_part_size := cl_expected (header_pairs dp.header_lines) p.expected_part_size, events_queue := p.events_queue ++ [Event.part (doc_part_obj dp)] }
              dp.body [] te rfl hheld hbl3 hexpd
          refine (queue_events_loop_step_fin f
            { p with buffer := join_lines (dp.body ++ (List.flatMap ([] : List DocPart) (part_lines p.separator) ++ [(p.terminator, te)])), state := States.BUILDING_BODY, current_part := none, expected_part_size := cl_expected (header_pairs dp.header_lines) p.expected_part_size, events_queue := p.events_queue ++ [Event.part (doc_part_obj dp)] }
            []
            { p with buffer := [], state := States.FINISHED, current_part := none, expected_part_size := none, current_part_size := 0, events_queue := (p.events_queue ++ [Event.part (doc_part_obj dp)]) ++ (if body_bytes dp.body = [] then [] else [Event.partData { raw := body_bytes dp.body, size := (body_bytes dp.body).length }]) }
            [] hfd2 rfl).trans ?_
          simp [parts_events, List.append_assoc]
      | cons dp2 rest2 =>
          have hT : (dp2 :: rest2).flatMap (part_lines p.separator) ++ [(p.terminator, te)] =
              (p.separator, dp2.sep_end) ::
                ((dp2.header_lines ++ ([], dp2.blank_end) :: dp2.body) ++
                  (rest2.flatMap (part_lines p.separator) ++ [(p.terminator, te)])) := by
            simp [List.flatMap_cons, part_lines, List.append_assoc]
          have hbufeq : ([] : Bytes) ++ p.separator ++ dp2.sep_end ++
              join_lines ((dp2.header_lines ++ ([], dp2.blank_end) :: dp2.body) ++
                (rest2.flatMap (part_lines p.separator) ++ [(p.terminator, te)])) =
              join_lines ((p.separator, dp2.sep_end) ::
                ((dp2.header_lines ++ ([], dp2.blank_end) :: dp2.body) ++
                  (rest2.flatMap (part_lines p.separator) ++ [(p.terminator, te)]))) := by
            simp [join_lines, List.append_assoc]
          have hwfX : ∀ ln ∈ (p.separator, dp2.sep_end) ::
              ((dp2.header_lines ++ ([], dp2.blank_end) :: dp2.body) ++
                (rest2.flatMap (part_lines p.separator) ++ [(p.terminator, te)])),
              payload_ok ln.1 = true ∧ nl_ok ln.2 = true := by
            rw [← hT]
            exact fun ln h => hwfT ln (List.mem_append_right _ h)
          have hnmX : no_merge ((p.separator, dp2.sep_end) ::
              ((dp2.header_lines ++ ([], dp2.blank_end) :: dp2.body) ++
                (rest2.flatMap (part_lines p.separator) ++ [(p.terminator, te)]))) = true := by
            rw [← hT]
            exact no_merge_append_right hnmT
          have hbody : dp.body ++ ((dp2 :: rest2).flatMap (part_lines p.separator) ++
              [(p.terminator, te)]) =
              dp.body ++ (p.separator, dp2.sep_end) ::
                ((dp2.header_lines ++ ([], dp2.blank_end) :: dp2.body) ++
                  (rest2.flatMap (part_lines p.separator) ++ [(p.terminator, te)])) := by
            rw [hT]
          have hfd2 : feed_dispatch { p with buffer := [], state := States.BUILDING_BODY, current_part := none, expected_part_size := cl_expected (header_pairs dp.header_lines) p.expected_part_size, events_queue := p.events_queue ++ [Event.part (doc_part_obj dp)] } (separate_newlines (join_lines (dp.body ++ ((dp2 :: rest2).flatMap (part_lines p.separator) ++ [(p.terminator, te)]))) ++ []) = .ok ({ p with buffer := ([] : Bytes) ++ p.separator ++ dp2.sep_end ++ join_lines ((dp2.header_lines ++ ([], dp2.blank_end) :: dp2.body) ++ (rest2.flatMap (part_lines p.separator) ++ [(p.terminator, te)])), state := States.BUILDING_HEADERS, current_part := none, expected_part_size := none, current_part_size := 0, events_queue := (p.events_queue ++ [Event.part (doc_part_obj dp)]) ++ (if body_bytes dp.body = [] then [] else [Event.partData { raw := body_bytes dp.body, size := (body_bytes dp.body).length }]) }, []) := by
            rw [List.append_nil, hsplitT, hbody]
            exact feed_dispatch_body_sep
              { p with buffer := [], state := States.BUILDING_BODY, current_part := none, expected_part_size := cl_expected (header_pairs dp.header_lines) p.expected_part_size, events_queue := p.events_queue ++ [Event.part (doc_part_obj dp)] }
              dp.body
              ((dp2.header_lines ++ ([], dp2.blank_end) :: dp2.body) ++
                (rest2.flatMap (part_lines p.separator) ++ [(p.terminator, te)]))
              dp2.sep_end rfl hheld hterm hbl3 hexpd
          refine (queue_events_loop_step_cont f
            { p with buffer := join_lines (dp.body ++ ((dp2 :: rest2).flatMap (part_lines p.separator) ++ [(p.terminator, te)])), state := States.BUILDING_BODY, current_part := none, expected_part_size := cl_expected (header_pairs dp.header_lines) p.expected_part_size, events_queue := p.events_queue ++ [Event.part (doc_part_obj dp)] }
            []
            { p with buffer := ([] : Bytes) ++ p.separator ++ dp2.sep_end ++ join_lines ((dp2.header_lines ++ ([], dp2.blank_end) :: dp2.body) ++ (rest2.flatMap (part_lines p.separator) ++ [(p.terminator, te)])), state := States.BUILDING_HEADERS, current_part := none, expected_part_size := none, current_part_size := 0, events_queue := (p.events_queue ++ [Event.part (doc_part_obj dp)]) ++ (if body_bytes dp.body = [] then [] else [Event.partData { raw := body_bytes dp.body, size := (body_bytes dp.body).length }]) }
            [] hfd2 (fun h => States.noConfusion h) (fun h => States.noConfusion h)
            (fun h => States.noConfusion h)).trans ?_
          have heff2 : separate_newlines (([] : Bytes) ++ p.separator ++ dp2.sep_end ++
              join_lines ((dp2.header_lines ++ ([], dp2.blank_end) :: dp2.body) ++
                (rest2.flatMap (part_lines p.separator) ++ [(p.terminator, te)]))) ++ [] =
              (dp2 :: rest2).flatMap (part_lines p.separator) ++ [(p.terminator, te)] := by
            rw [hbufeq, separate_newlines_join _ hwfX hnmX, List.append_nil, ← hT]
          have hfuel2 : 2 * (dp2 :: rest2).length ≤ f := by
            simp only [List.length_cons] at hfuel ⊢
            omega
          rw [ih { p with buffer := ([] : Bytes) ++ p.separator ++ dp2.sep_end ++ join_lines ((dp2.header_lines ++ ([], dp2.blank_end) :: dp2.body) ++ (rest2.flatMap (part_lines p.separator) ++ [(p.terminator, te)])), state := States.BUILDING_HEADERS, current_part := none, expected_part_size := none, current_part_size := 0, events_queue := (p.events_queue ++ [Event.part (doc_part_obj dp)]) ++ (if body_bytes dp.body = [] then [] else [Event.partData { raw := body_bytes dp.body, size := (body_bytes dp.body).length }]) }
            [] te f (List.cons_ne_nil _ _) rfl rfl hheld rfl rfl hch hterm hsep2 hte
            (fun x hx => hpo x (List.mem_cons_of_mem _ hx))
            (fun ln h => hwfT ln (List.mem_append_right _ h))
            (no_merge_append_right hnmT)
            heff2 hfuel2]
          simp [parts_events, List.append_assoc]

/-- A separator line's payload is CR/LF-free when the boundary is. -/
theorem payload_ok_sep (b : Bytes) (hb : payload_ok b = true) :
    payload_ok ([45, 45] ++ b) = true := by
  simp only [payload_ok, List.all_append, Bool.and_eq_true] at hb ⊢
  exact ⟨by decide, hb⟩

/-- A terminator line's payload is CR/LF-free when the boundary is. -/
theorem payload_ok_term (b : Bytes) (hb : payload_ok b = true) :
    payload_ok ([45, 45] ++ b ++ [45, 45]) = true := by
  simp only [payload_ok, List.all_append, Bool.and_eq_true] at hb ⊢
  exact ⟨⟨by decide, hb⟩, by decide⟩

/-- Every line of a valid document's rendering has a CR/LF-free payload and
a proper line ending. -/
theorem doc_lines_wf (d : Doc) (hv : valid_doc d) :
    ∀ ln ∈ doc_lines d, payload_ok ln.1 = true ∧ nl_ok ln.2 = true := by
  obtain ⟨hne, hb, hte, hpo, hnm⟩ := hv
  intro ln h
  simp only [doc_lines, List.mem_append, List.mem_singleton, List.mem_flatMap] at h
  rcases h with ⟨dp, hdp, hln⟩ | rfl
  · obtain ⟨h1, h2, h3, h4, _, _⟩ := hpo dp hdp
    simp only [part_lines, List.mem_cons, List.mem_append] at hln
    rcases hln with rfl | hh | hln3
    · exact ⟨payload_ok_sep d.boundary hb, h1⟩
    · exact ⟨(h3 ln hh).1, (h3 ln hh).2.1⟩
    · rcases hln3 with rfl | hbody
      · exact ⟨rfl, h2⟩
      · exact ⟨(h4 ln hbody).1, (h4 ln hbody).2.1⟩
  · exact ⟨payload_ok_term d.boundary hb, hte⟩

/-- Each rendered part is at least two bytes long (it starts with the
separator line whose payload starts with `--`). -/
theorem join_lines_flat_ge (sep : Bytes) (h2 : 2 ≤ sep.length) (parts : List DocPart) :
    2 * parts.length ≤ (join_lines (parts.flatMap (part_lines sep))).length := by
  induction parts with
  | nil => simp
  | cons dp rest ih =>
      simp only [List.flatMap_cons, join_lines_append, List.length_append, List.length_cons]
      have e : join_lines (part_lines sep dp) =
          sep ++ dp.sep_end ++ join_lines (dp.header_lines ++ ([], dp.blank_end) :: dp.body) :=
        rfl
      have : 2 ≤ (join_lines (part_lines sep dp)).length := by
        rw [e]
        simp only [List.length_append]
        omega
      omega

/-- The rendering of a document is long enough to fuel two loop iterations
per part. -/
theorem render_fuel (d : Doc) : 2 * d.parts.length ≤ (render d).length := by
  have h := join_lines_flat_ge ([45, 45] ++ d.boundary) (by simp) d.parts
  simp only [render, doc_lines, join_lines_append, List.length_append]
  omega

/-- Drop events through the `k`-th `Part` event (skipping everything else). -/
def drop_to_part : Nat → List Event → List Event
  | _, [] => []
  | k, e :: rest =>
      match e with
      | .part _ =>
          match k with
          | 0 => rest
          | k' + 1 => drop_to_part k' rest
      | _ => drop_to_part k rest

/-- The raw bytes of the `PartData` events before the next `Part` or
`FINISHED` event. -/
def pds_before : List Event → List Bytes
  | [] => []
  | e :: rest =>
      match e with
      | .partData pd => pd.raw :: pds_before rest
      | .part _ => []
      | .FINISHED => []
      | .NEED_DATA => pds_before rest

/-- Concatenate a list of byte strings. -/
def cat_bytes : List Bytes → Bytes
  | [] => []
  | b :: rest => b ++ cat_bytes rest

/-- Concatenation of the raw fields of all `PartData` events between the
`k`-th `Part` event and the next `Part` or `FINISHED` event. -/
def pd_between (evs : List Event) (k : Nat) : Bytes :=
  cat_bytes (pds_before (drop_to_part k evs))

/-- No `PartData` events sit before the next `Part`/`FINISHED` boundary of
an event stream produced by `parts_events`. -/
theorem pds_before_parts (rest : List DocPart) :
    pds_before (parts_events rest ++ [Event.FINISHED]) = [] := by
  cases rest with
  | nil => rfl
  | cons dp2 r2 => rfl

/-- In the event stream of a document, the `PartData` bytes between `Part`
`k` and the next `Part`/`FINISHED` are exactly the body bytes of part `k`. -/
theorem pd_between_parts (parts : List DocPart) :
    ∀ (k : Nat) (hk : k < parts.length),
      pd_between (parts_events parts ++ [Event.FINISHED]) k =
        body_bytes ((parts.get ⟨k, hk⟩).body) := by
  induction parts with
  | nil =>
      intro k hk
      exact absurd hk (by simp)
  | cons dp rest ih =>
      intro k hk
      cases k with
      | zero =>
          have hget : ((dp :: rest).get ⟨0, hk⟩) = dp := rfl
          rw [hget]
          simp only [parts_events, pd_between, List.cons_append, drop_to_part,
            List.append_eq]
          by_cases hb : body_bytes dp.body = []
          · rw [if_pos hb, List.nil_append, pds_before_parts]
            simp [cat_bytes, hb]
          · rw [if_neg hb, List.cons_append, List.nil_append]
            simp only [pds_before, cat_bytes, List.append_eq, pds_before_parts,
              List.append_nil]
      | succ k' =>
          have hk' : k' < rest.length := by simpa using hk
          have hskip : drop_to_part k'
              ((if body_bytes dp.body = [] then [] else
                [Event.partData { raw := body_bytes dp.body, size := (body_bytes dp.body).length }]) ++
                (parts_events rest ++ [Event.FINISHED])) =
              drop_to_part k' (parts_events rest ++ [Event.FINISHED]) := by
            by_cases hb : body_bytes dp.body = []
            · simp [hb]
            · simp [hb, drop_to_part]
          simp only [parts_events, pd_between, List.cons_append, drop_to_part,
            List.append_eq, List.append_assoc]
          rw [hskip]
          exact ih k' hk'

/-- C2: feeding a valid multipart document to a fresh parser in one call
succeeds and queues exactly the document's events (one `Part` per part, its
`PartData` when the body is non-empty, then `FINISHED`); and for every `k`,
the concatenation of the raw fields of the `PartData` events between the
`k`-th `Part` event and the next `Part` or `FINISHED` event equals
byte-for-byte the body of part `k` of the document — in particular the
CRLF/LF/CR immediately preceding a separator or terminator line belongs to
the boundary line and is never included in the emitted body bytes. -/
theorem c2_single_feed_bodies (d : Doc) (k : Nat) (hv : valid_doc d)
    (hk : k < d.parts.length) :
    recv (mk_multipart d.boundary) (render d) =
      .ok { mk_multipart d.boundary with state := .FINISHED, events_queue := doc_events d } ∧
    pd_between (doc_events d) k = body_bytes ((d.parts.get ⟨k, hk⟩).body) := by
  constructor
  · have hwfd := doc_lines_wf d hv
    obtain ⟨hne, hb, hte, hpo, hnm⟩ := hv
    have hte' : d.term_end ≠ [] := fun h => by rw [h] at hte; simp [nl_ok] at hte
    have heffQ : separate_newlines (([] : Bytes)) ++
        separate_newlines (([] : Bytes) ++ render d) =
        d.parts.flatMap (part_lines ([45, 45] ++ d.boundary)) ++
          [(([45, 45] ++ d.boundary) ++ [45, 45], d.term_end)] := by
      show separate_newlines (render d) = _
      rw [show render d = join_lines (doc_lines d) from rfl,
        separate_newlines_join (doc_lines d) hwfd hnm]
      rfl
    have hfuelQ : 2 * d.parts.length ≤ (([] : Bytes) ++ render d).length + 4 := by
      have hr := render_fuel d
      simp only [List.nil_append]
      omega
    simp only [recv, queue_events]
    rw [if_neg (fun h => States.noConfusion h)]
    exact loop_run d.parts { mk_multipart d.boundary with buffer := [] }
      (separate_newlines (([] : Bytes) ++ render d)) d.term_end
      ((([] : Bytes) ++ render d).length + 4)
      hne rfl rfl rfl rfl rfl rfl rfl (by simp [mk_multipart]) hte' hpo hwfd hnm heffQ hfuelQ
  · exact pd_between_parts d.parts k hk

/-- First part of the concrete witness document: headers
`Content-Disposition: form-data; name=a`, body lines `AB` and `C`. -/
def dpW1 : DocPart :=
  { sep_end := [13, 10],
    header_lines := [((sb ("Content-Disposition: form-data; name=a")), [13, 10])],
    blank_end := [13, 10],
    body := [((sb ("AB")), [13, 10]), ((sb ("C")), [13, 10])] }

/-- Second part of the concrete witness document, with an `LF`-terminated
body line `D`. -/
def dpW2 : DocPart :=
  { sep_end := [13, 10],
    header_lines := [((sb ("Content-Disposition: form-data; name=b")), [13, 10])],
    blank_end := [13, 10],
    body := [((sb ("D")), [10])] }

/-- The concrete witness document: boundary `X`, two parts. -/
def dW : Doc := { boundary := [88], parts := [dpW1, dpW2], term_end := [13, 10] }

instance (ln : Line) : Decidable (header_line_ok ln) :=
  inferInstanceAs (Decidable (payload_ok ln.1 = true ∧ nl_ok ln.2 = true ∧
    py_strip (decode_latin1 ln.1) ≠ ("") ∧ s_contains (decode_latin1 ln.1) ':' = true))

instance (sep term : Bytes) (ln : Line) : Decidable (body_line_ok sep term ln) :=
  inferInstanceAs (Decidable (payload_ok ln.1 = true ∧ nl_ok ln.2 = true ∧
    ln.1 ≠ sep ∧ ln.1 ≠ term))

theorem dW_parts_pos : 0 < dW.parts.length := by decide

theorem dW_valid : valid_doc dW := by
  refine ⟨by decide, by decide, by decide, ?_, by decide⟩
  intro dp hdp
  simp only [dW, List.mem_cons, List.not_mem_nil, or_false] at hdp
  rcases hdp with rfl | rfl
  · refine ⟨by decide, by decide, by decide, by decide, by decide, ?_⟩
    intro v hv
    rw [show headers_get (header_pairs dpW1.header_lines) ("Content-Length") = none from
      by decide] at hv
    exact Option.noConfusion hv
  · refine ⟨by decide, by decide, by decide, by decide, by decide, ?_⟩
    intro v hv
    rw [show headers_get (header_pairs dpW2.header_lines) ("Content-Length") = none from
      by decide] at hv
    exact Option.noConfusion hv

/-- C2 witness: the single-shot feed of the concrete two-part document with
boundary `X`, checked for part 0. -/
theorem c2_single_feed_bodies_instance :
    valid_doc dW ∧ 0 < dW.parts.length ∧
      (recv (mk_multipart dW.boundary) (render dW) =
          .ok { mk_multipart dW.boundary with state := .FINISHED, events_queue := doc_events dW } ∧
        pd_between (doc_events dW) 0 = body_bytes ((dW.parts.get ⟨0, dW_parts_pos⟩).body)) :=
  ⟨dW_valid, dW_parts_pos, c2_single_feed_bodies dW 0 dW_valid dW_parts_pos⟩

end Multipart
